import Mathlib

set_option maxRecDepth 10000

namespace Rattler

/-!
Shallow embedding of the repodata-gateway core of the rattler repository:
the sparse-index shard layout and manifest formats
(crates/rattler_conda_types/src/sparse_index/mod.rs), the gateway's recursive
record traversal (crates/rattler_repodata_gateway/src/gateway/mod.rs), the
coalescing cache map (crates/rattler_repodata_gateway/src/utils/cache_map.rs)
as an interleaving transition system, and the sparse-index HTTP fetcher
(crates/rattler_repodata_gateway/src/sparse_index/gateway/http.rs).

Byte strings are modelled as List UInt8; Rust Strings appear as the list of
their UTF-8 bytes or, where only character-level operations occur, as the
list of their characters.
-/

/-! ## Sparse index shard paths (crates/rattler_conda_types/src/sparse_index/mod.rs) -/

/-- Error enum SparseIndexFilenameError from sparse_index/mod.rs. -/
inductive SparseIndexFilenameError where
  | emptyFilename
  | noFileNameComponent
  | utf8Error
  deriving DecidableEq, Repr

/-- Possible outcomes of running a Rust function that may panic. -/
inductive RustOutcome (α ε : Type) where
  | returns (v : α)
  | errs (e : ε)
  | panicked
  deriving DecidableEq, Repr

/-- UTF-8 bytes of the suffix ".json.zst" that sparse_index_filename appends to
every shard file name. -/
def jsonZstExt : List UInt8 := [46, 106, 115, 111, 110, 46, 122, 115, 116]

/-- UTF-8 byte length of a string given as its character list; Rust
String::len. -/
def utf8Len (s : List Char) : Nat := (s.map Char.utf8Size).sum

/-- UTF-8 encoding of a string given as its character list. -/
def utf8Bytes (s : List Char) : List UInt8 :=
  (s.map String.utf8EncodeChar).foldr (· ++ ·) []

/-- Byte-range prefix of a UTF-8 string: the characters making up its first n
bytes, or none when byte offset n falls inside a multibyte character or past
the end - exactly where Rust &str range slicing panics. -/
def takeBytes : List Char → Nat → Option (List Char)
  | _, 0 => some []
  | [], _ + 1 => none
  | c :: cs, n + 1 =>
    if c.utf8Size ≤ n + 1 then (takeBytes cs (n + 1 - c.utf8Size)).map (c :: ·)
    else none

/-- Byte-range remainder of a UTF-8 string: the characters after its first n
bytes, or none when byte offset n falls inside a multibyte character or past
the end. -/
def dropBytes : List Char → Nat → Option (List Char)
  | s, 0 => some s
  | [], _ + 1 => none
  | c :: cs, n + 1 =>
    if c.utf8Size ≤ n + 1 then dropBytes cs (n + 1 - c.utf8Size)
    else none

/-- Model of sparse_index_filename: the shard path of a package name, returned
as the list of its path segments as UTF-8 byte lists (byte 49 is the directory
name 1, 50 is 2, 51 is 3). The Rust function takes a &str - a valid UTF-8
string, modelled as its character list - and matches on its byte length
(String::len); the length-3 arm slices the string at the byte range 0..1, and
the length-at-least-4 arm at 0..2 and then 2..4. Rust &str range slicing
panics when a range boundary falls inside a multibyte character, modelled by
the panicked outcome of takeBytes and dropBytes returning none. -/
def sparse_index_filename (package_name : List Char) :
    RustOutcome (List (List UInt8)) SparseIndexFilenameError :=
  match utf8Len package_name with
  | 0 => .errs .emptyFilename
  | 1 => .returns [[49], utf8Bytes package_name ++ jsonZstExt]
  | 2 => .returns [[50], utf8Bytes package_name ++ jsonZstExt]
  | 3 =>
    match takeBytes package_name 1 with
    | some seg => .returns [[51], utf8Bytes seg, utf8Bytes package_name ++ jsonZstExt]
    | none => .panicked
  | _ + 4 =>
    match takeBytes package_name 2 with
    | some seg1 =>
      match (dropBytes package_name 2).bind (fun t => takeBytes t 2) with
      | some seg2 =>
        .returns [utf8Bytes seg1, utf8Bytes seg2, utf8Bytes package_name ++ jsonZstExt]
      | none => .panicked
    | none => .panicked

/-! ## Manifest binary formats (crates/rattler_conda_types/src/sparse_index/mod.rs) -/

/-- Bytes of the magic "NAME" of a names manifest. -/
def NAMES_FILE_MAGIC : List UInt8 := [78, 65, 77, 69]

/-- Bytes of the magic "DEPS" of a dependencies manifest. -/
def DEPENDENCIES_FILE_MAGIC : List UInt8 := [68, 69, 80, 83]

/-- Little-endian encoding of a u16 value. -/
def u16le (v : Nat) : List UInt8 := [UInt8.ofNat (v % 256), UInt8.ofNat (v / 256 % 256)]

/-- Decode a little-endian u16 from the front of a byte list; none models a
read_u16 failing with an io error at EOF. -/
def readU16le : List UInt8 → Option (Nat × List UInt8)
  | b0 :: b1 :: rest => some (b0.toNat + 256 * b1.toNat, rest)
  | _ => none

/-- Model of BufRead::read_until(0): the bytes read before the first NUL, whether
a NUL was found (and consumed), and the remaining input after it. -/
def readUntilNul : List UInt8 → List UInt8 × Bool × List UInt8
  | [] => ([], false, [])
  | b :: bs =>
    if b = 0 then ([], true, bs)
    else
      let r := readUntilNul bs
      (b :: r.1, r.2.1, r.2.2)

/-- Serialization of a names manifest (SparseIndexNames::to_writer): the magic
"NAME", the u16 little-endian version 1, then for every entry the package name
bytes, a NUL terminator and the 8 hash bytes. The FxHashMap is modelled as the
list of its entries in iteration order. -/
def namesToBytes (entries : List (List UInt8 × List UInt8)) : List UInt8 :=
  NAMES_FILE_MAGIC ++ u16le 1 ++
    (entries.map (fun e => e.1 ++ [0] ++ e.2)).foldr (· ++ ·) []

/-- Entry loop of SparseIndexNames::from_bytes. Returns none where the Rust code
returns an io error: a name that reaches EOF before a NUL leaves no bytes for the
8-byte hash read, and a missing hash fails read_exact. The fuel argument bounds
the number of loop iterations; every iteration consumes at least nine bytes, so
fuel equal to the input length never runs out. -/
def parseNamesEntriesGo : Nat → List UInt8 → Option (List (List UInt8 × List UInt8))
  | _, [] => some []
  | 0, _ :: _ => none
  | fuel + 1, b :: bs =>
    match readUntilNul (b :: bs) with
    | (_, false, _) => none
    | (name, true, rest) =>
      if 8 ≤ rest.length then
        (parseNamesEntriesGo fuel (rest.drop 8)).map (fun es => (name, rest.take 8) :: es)
      else none

/-- Model of SparseIndexNames::from_bytes: verify the magic and the version,
then parse the entries. -/
def namesFromBytes (bytes : List UInt8) : Option (List (List UInt8 × List UInt8)) :=
  if bytes.take 4 = NAMES_FILE_MAGIC then
    match readU16le (bytes.drop 4) with
    | some (version, rest) =>
      if version = 1 then parseNamesEntriesGo rest.length rest else none
    | none => none
  else none

/-- Serialization of a dependencies manifest (SparseIndexDependencies::to_file):
the magic "DEPS", the u16 little-endian version 1, then for every entry the
package name with a NUL, each dependency name with a NUL, and a final NUL
terminating the entry. Maps and sets are modelled as entry lists in iteration
order. -/
def depsToBytes (entries : List (List UInt8 × List (List UInt8))) : List UInt8 :=
  DEPENDENCIES_FILE_MAGIC ++ u16le 1 ++
    (entries.map (fun e =>
       e.1 ++ [0] ++ (e.2.map (fun d => d ++ [0])).foldr (· ++ ·) [] ++ [0])).foldr
      (· ++ ·) []

/-- Inner dependency loop of SparseIndexDependencies::from_bytes. A read of
length zero is the premature-EOF error; a read of length one (a lone NUL, or a
single trailing byte at EOF) terminates the dependency list; a longer read that
found its NUL is one dependency name. Returns the dependencies and the
remaining input. -/
def parseDepsDepsGo : Nat → List UInt8 → Option (List (List UInt8) × List UInt8)
  | 0, _ => none
  | fuel + 1, l =>
    let r := readUntilNul l
    let len := r.1.length + (if r.2.1 then 1 else 0)
    if len = 0 then none
    else if len = 1 then some ([], r.2.2)
    else if r.2.1 then
      (parseDepsDepsGo fuel r.2.2).map (fun p => (r.1 :: p.1, p.2))
    else none

/-- Entry loop of SparseIndexDependencies::from_bytes: read a package name up to
its NUL, then its dependency list, then continue with the rest. -/
def parseDepsEntriesGo : Nat → List UInt8 → Option (List (List UInt8 × List (List UInt8)))
  | _, [] => some []
  | 0, _ :: _ => none
  | fuel + 1, b :: bs =>
    match readUntilNul (b :: bs) with
    | (_, false, _) => none
    | (name, true, rest) =>
      match parseDepsDepsGo (rest.length + 1) rest with
      | some (deps, remaining) =>
        (parseDepsEntriesGo fuel remaining).map (fun es => (name, deps) :: es)
      | none => none

/-- Model of SparseIndexDependencies::from_bytes: verify the magic and the
version, then parse the entries. -/
def depsFromBytes (bytes : List UInt8) : Option (List (List UInt8 × List (List UInt8))) :=
  if bytes.take 4 = DEPENDENCIES_FILE_MAGIC then
    match readU16le (bytes.drop 4) with
    | some (version, rest) =>
      if version = 1 then parseDepsEntriesGo rest.length rest else none
    | none => none
  else none

/-! ## Gateway data model (crates/rattler_repodata_gateway/src/gateway) -/

/-- Modelled from the spec: Platform is a closed enum of architecture/OS pairs
plus the distinguished value NoArch. The Platform type lives in the
rattler_conda_types crate, whose platform module is not part of the provided
sources; only the NoArch versus concrete distinction is observable in the
gateway code, so representative concrete variants suffice. -/
inductive Platform where
  | noArch
  | linux64
  | linuxAarch64
  | win64
  | osx64
  | osxArm64
  deriving DecidableEq, Repr

/-- Modelled from the spec: PackageName wraps a string; the gateway constructs
names with PackageName::new_unchecked, which performs no normalization. Names
are modelled as character lists. -/
abbrev PackageName := List Char

/-- Channels are identified by their canonical name for the purposes of the
result map keys. -/
abbrev Channel := String

/-- The fields of a RepoDataRecord observed by the gateway traversal: the
dependency specs of its package record drive the expansion and the file name
distinguishes builds. All remaining fields are carried opaquely by the code
and never influence control flow. -/
structure RepoDataRecord where
  file_name : String
  depends : List (List Char)
  deriving DecidableEq, Repr

/-- Model of str::split_once applied to the space character: the parts before
and after the first space, or none when the string contains no space. -/
def split_once : List Char → Option (List Char × List Char)
  | [] => none
  | c :: cs =>
    if c = ' ' then some ([], cs)
    else (split_once cs).map (fun p => (c :: p.1, p.2))

/-- Dependency-name extraction as written in both find_recursive_records
implementations (gateway/mod.rs line 174 and sparse_index/gateway/mod.rs line
249): dependency.split_once of a space, unwrapped to the whole string when no
space occurs, first component. -/
def extractDepName (dependency : List Char) : PackageName :=
  match split_once dependency with
  | some p => p.1
  | none => dependency

/-- Modelled from the spec: the dependency-name extraction as the specification
words it, used only for comparison against extractDepName. The name is
everything before the first whitespace; specs with empty names, leading
whitespace, or non-ASCII control characters are ignored (none). -/
def extractDepNameSpec (dependency : List Char) : Option PackageName :=
  let name := dependency.takeWhile (fun c => !c.isWhitespace)
  if name = [] then none
  else if dependency.head?.elim false Char.isWhitespace then none
  else if dependency.any (fun c => 128 ≤ c.toNat) then none
  else some name

/-- Treatment of one dependency spec inside the expansion loop of
find_recursive_records (gateway/mod.rs lines 173-180): extract the dependency
name and, when it is unseen, insert it into the seen set (first component) and
push it onto the pending queue (second component). -/
def depStep (st : List PackageName × List PackageName) (dep : List Char) :
    List PackageName × List PackageName :=
  if extractDepName dep ∈ st.1 then st
  else (st.1 ++ [extractDepName dep], st.2 ++ [extractDepName dep])

/-- One completion of the dependency-expansion loop in find_recursive_records
(gateway/mod.rs lines 171-182): every dependency of every record runs through
depStep. -/
def addDependencies (records : List RepoDataRecord)
    (st : List PackageName × List PackageName) : List PackageName × List PackageName :=
  records.foldl (fun st r => r.depends.foldl depStep st) st

/-- Error enum SubdirSourceError (gateway/source/mod.rs), with the NotFound
variants flattened and payloads carried as strings. -/
inductive SubdirSourceError where
  | invalidPath (url : String)
  | invalidUrl (url : String)
  | ioError
  | notFound (path : String)
  | pathDoesNotContainRepoData (path : String)
  | cancelled
  deriving DecidableEq, Repr

/-- Error enum GatewayError (gateway/mod.rs lines 35-46). -/
inductive GatewayError where
  | fetchRecordsError
  | subdirSourceError (channel : Channel) (platform : Platform) (err : SubdirSourceError)
  | cancelled
  deriving DecidableEq, Repr

/-- Contents of one subdir: the record list stored per package name, as a
finite association list. Subdir::get_or_cache_records consults its source per
name; a name that is absent from the subdir yields the empty record list. -/
abbrev SubdirData := List (PackageName × List RepoDataRecord)

/-- Record lookup in a subdir: the records of the first entry whose name
matches, or the empty list. -/
def lookupRecords : SubdirData → PackageName → List RepoDataRecord
  | [], _ => []
  | e :: es, n => if e.1 = n then e.2 else lookupRecords es n

/-- Error classification applied when a subdir is first constructed
(Gateway::get_or_cache_subdir, gateway/mod.rs lines 84-95): a NotFound error on
a platform other than NoArch becomes Ok(None); any other error, or NotFound on
NoArch, is propagated; a successfully constructed source becomes Ok(Some _). -/
def classifySubdirResult (platform : Platform)
    (res : Except SubdirSourceError SubdirData) :
    Except SubdirSourceError (Option SubdirData) :=
  match res with
  | .ok source => .ok (some source)
  | .error e =>
    match e with
    | .notFound p =>
      if platform ≠ Platform.noArch then .ok none else .error (.notFound p)
    | _ => .error e

/-- Cartesian product of the queried channels and platforms, in the order
produced by channels.iter().cartesian_product(platforms). -/
def subdirPairs (channels : List Channel) (platforms : List Platform) :
    List (Channel × Platform) :=
  channels.foldr (fun c acc => platforms.map (fun p => (c, p)) ++ acc) []

/-- Construction of every queried subdir. Each (channel, platform) pair runs
SubdirSource::new (abstracted by sourceNew) through the classification; the
first pair whose classification fails aborts the call with SubdirSourceError
(in the code the first completed failing future aborts find_recursive_records),
and Ok(None) - a missing non-NoArch subdir - contributes an empty subdir,
matching the arm that yields an empty record slice for every name. -/
def buildSubdirsGo (sourceNew : Channel → Platform → Except SubdirSourceError SubdirData) :
    List (Channel × Platform) →
    Except GatewayError (List (Channel × Platform × SubdirData))
  | [] => .ok []
  | cp :: rest =>
    match classifySubdirResult cp.2 (sourceNew cp.1 cp.2) with
    | .ok (some d) => (buildSubdirsGo sourceNew rest).map (fun l => (cp.1, cp.2, d) :: l)
    | .ok none =>
      (buildSubdirsGo sourceNew rest).map (fun l => (cp.1, cp.2, ([] : SubdirData)) :: l)
    | .error e => .error (GatewayError.subdirSourceError cp.1 cp.2 e)

/-- All queried subdirs constructed in pair order. -/
def buildSubdirs (sourceNew : Channel → Platform → Except SubdirSourceError SubdirData)
    (channels : List Channel) (platforms : List Platform) :
    Except GatewayError (List (Channel × Platform × SubdirData)) :=
  buildSubdirsGo sourceNew (subdirPairs channels platforms)

/-- State of the traversal loop of find_recursive_records: the seen set, the
pending queue and the accumulated result. The result map keyed by channel is
flattened to the list of (channel, record) insertions. -/
structure GatewayLoopState where
  seen : List PackageName
  pending : List PackageName
  result : List (Channel × RepoDataRecord)

/-- Processing of one pending package name against every queried subdir: fetch
its records from each subdir, expand their dependency names into seen and
pending, and append the records to the result under the subdir's channel. This
sequentialises, in subdir order, the completions of the futures that
find_recursive_records creates for one pending name. -/
def processName (subdirs : List (Channel × Platform × SubdirData)) (name : PackageName)
    (st : GatewayLoopState) : GatewayLoopState :=
  subdirs.foldl (fun st sub =>
    let records := lookupRecords sub.2.2 name
    let sp := addDependencies records (st.seen, st.pending)
    { seen := sp.1, pending := sp.2,
      result := st.result ++ records.map (fun r => (sub.1, r)) }) st

/-- Main loop of find_recursive_records: pop pending names in FIFO order and
process each against every subdir until the queue drains. fuel bounds the
number of iterations; none models a run that did not finish within fuel. -/
def gatewayLoop (subdirs : List (Channel × Platform × SubdirData)) :
    Nat → GatewayLoopState → Option (List (Channel × RepoDataRecord))
  | 0, _ => none
  | fuel + 1, st =>
    match st.pending with
    | [] => some st.result
    | n :: rest =>
      gatewayLoop subdirs fuel
        (processName subdirs n { st with pending := rest })

/-- Model of Gateway::find_recursive_records (gateway/mod.rs lines 107-189),
the concurrent traversal sequentialised: the seen set and pending queue are
seeded with the deduplicated roots, each queried subdir is constructed through
the classification, and the worklist loop expands dependency names until the
queue is empty. When the root set is empty no futures are created and the call
returns an empty map without touching any subdir. -/
def find_recursive_records
    (sourceNew : Channel → Platform → Except SubdirSourceError SubdirData)
    (channels : List Channel) (platforms : List Platform)
    (package_names : List PackageName) (fuel : Nat) :
    Option (Except GatewayError (List (Channel × RepoDataRecord))) :=
  let seen := package_names.eraseDups
  if seen = [] then some (.ok []) else
  match buildSubdirs sourceNew channels platforms with
  | .error e => some (.error e)
  | .ok subdirs =>
    (gatewayLoop subdirs fuel { seen := seen, pending := seen, result := [] }).map .ok

/-- Records of one package name that a queried (channel, platform) subdir
holds, as find_recursive_records sees them: the lookup in the classified
subdir contents, empty when the subdir is missing (Ok(None)) or failed. -/
def queriedRecords (sourceNew : Channel → Platform → Except SubdirSourceError SubdirData)
    (c : Channel) (p : Platform) (name : PackageName) : List RepoDataRecord :=
  match classifySubdirResult p (sourceNew c p) with
  | .ok (some d) => lookupRecords d name
  | _ => []

/-! ## The coalescing cache map as an interleaving transition system
(crates/rattler_repodata_gateway/src/utils/cache_map.rs)

CacheMap::get_or_cache is modelled per key: a state holds the FrozenMap slot
for the key, the in-flight map entry, the callers of get_or_cache and the
spawned producer tasks. Each transition is one of the atomic sections of the
code: the lock-free fast-path read, the critical section under the in_flight
mutex, the completion of a spawned task (which publishes, broadcasts and
deregisters inside one critical section), and a caller's return from recv.
Interleavings of concurrent callers are lists of such transitions. -/

/-- Behaviour of one producer future, abstracted by its outcome: it resolves
with a value, resolves with an error, or panics (as SubdirSource::new does for
http and https channels). -/
inductive ProducerSpec (Val Err : Type) where
  | ok (v : Val)
  | fails (e : Err)
  | panics
  deriving DecidableEq, Repr

/-- Outcome of one get_or_cache call, mirroring Result of CoalescingError
(cache_map.rs lines 25-35 and 116-131): the published value, the producer's own
error taken from the shared slot, the CoalescedOperationFailed marker when the
slot was already emptied, or Cancelled when the broadcast sender was dropped
without sending. -/
inductive CallOutcome (Val Err : Type) where
  | ok (v : Val)
  | cacheError (e : Err)
  | coalescedOperationFailed
  | cancelled
  deriving DecidableEq, Repr

/-- Message a waiter obtains from the broadcast channel: Ok(()), the Err marker
whose error value sits in the task's shared slot, or Closed when the sender was
dropped without sending (the producer panicked). -/
inductive BroadcastMsg where
  | okUnit
  | erred
  | closed
  deriving DecidableEq, Repr

/-- Progress of one get_or_cache caller: about to run the fast-path read; past
a missed fast path and about to take the in_flight lock; subscribed to task t
and suspended in recv; returned from recv with a message; finished with an
outcome. -/
inductive CallerPhase (Val Err : Type) where
  | start
  | missed
  | waiting (task : Nat)
  | received (task : Nat) (msg : BroadcastMsg)
  | done (outcome : CallOutcome Val Err)
  deriving DecidableEq, Repr

/-- One spawned producer task: its producer's behaviour, whether its future has
resolved, and the shared error slot (the Arc Mutex Option cell of cache_map.rs
line 102) that carries a failed producer's error to the first taker. -/
structure TaskState (Val Err : Type) where
  spec : ProducerSpec Val Err
  finished : Bool
  errSlot : Option Err
  deriving DecidableEq, Repr

/-- State of the in-flight map entry for the key: no entry; an entry whose Weak
sender still upgrades (task running); or an entry left behind by a panicked
task, whose Weak::upgrade fails. Successful and failing tasks remove their
entry inside their completion critical section, so only a panic leaves a dead
entry. -/
inductive InFlightEntry where
  | absent
  | live (task : Nat)
  | dead
  deriving DecidableEq, Repr

/-- Global state of the cache map restricted to one key, together with the
callers of get_or_cache for that key. -/
structure CacheMapState (Val Err : Type) where
  value : Option Val
  inFlight : InFlightEntry
  callers : List (ProducerSpec Val Err × CallerPhase Val Err)
  tasks : List (TaskState Val Err)
  invocations : Nat
  deriving DecidableEq, Repr

/-- Labels of the atomic transitions of the model. -/
inductive CacheMapStep where
  | fastPath (i : Nat)
  | lockCheck (i : Nat)
  | taskComplete (t : Nat)
  | receive (i : Nat)
  deriving DecidableEq, Repr

/-- Initial state for a set of concurrent callers with the given producer
behaviours while nothing is cached for the key. -/
def initState (specs : List (ProducerSpec Val Err)) : CacheMapState Val Err :=
  { value := none, inFlight := .absent,
    callers := specs.map (fun s => (s, .start)),
    tasks := [], invocations := 0 }

/-- Move every caller that waits on task t to the received phase with the given
message (the broadcast delivery of cache_map.rs line 105, observed by each
pending recv, or the channel closing on a panic). -/
def deliverToWaiters (callers : List (ProducerSpec Val Err × CallerPhase Val Err))
    (t : Nat) (msg : BroadcastMsg) :
    List (ProducerSpec Val Err × CallerPhase Val Err) :=
  callers.map (fun c =>
    match c.2 with
    | .waiting t' => if t' = t then (c.1, .received t msg) else c
    | _ => c)

/-- One atomic transition of the model; none when the label does not apply in
the given state (for example completing a task twice). -/
def applyStep (step : CacheMapStep) (s : CacheMapState Val Err) :
    Option (CacheMapState Val Err) :=
  match step with
  | .fastPath i =>
    match s.callers.get? i with
    | some (spec, .start) =>
      match s.value with
      | some v => some { s with callers := s.callers.set i (spec, .done (.ok v)) }
      | none => some { s with callers := s.callers.set i (spec, .missed) }
    | _ => none
  | .lockCheck i =>
    match s.callers.get? i with
    | some (spec, .missed) =>
      match s.inFlight with
      | .live t => some { s with callers := s.callers.set i (spec, .waiting t) }
      | _ =>
        let t := s.tasks.length
        some { s with
          callers := s.callers.set i (spec, .waiting t),
          tasks := s.tasks ++ [{ spec := spec, finished := false, errSlot := none }],
          inFlight := .live t,
          invocations := s.invocations + 1 }
    | _ => none
  | .taskComplete t =>
    match s.tasks.get? t with
    | some task =>
      if task.finished then none
      else
        match task.spec with
        | .ok v =>
          some { s with
            value := some (s.value.getD v),
            callers := deliverToWaiters s.callers t .okUnit,
            tasks := s.tasks.set t { task with finished := true },
            inFlight := .absent }
        | .fails e =>
          some { s with
            callers := deliverToWaiters s.callers t .erred,
            tasks := s.tasks.set t { task with finished := true, errSlot := some e },
            inFlight := .absent }
        | .panics =>
          some { s with
            callers := deliverToWaiters s.callers t .closed,
            tasks := s.tasks.set t { task with finished := true },
            inFlight := .dead }
    | none => none
  | .receive i =>
    match s.callers.get? i with
    | some (spec, .received t msg) =>
      match msg with
      | .okUnit =>
        match s.value with
        | some v => some { s with callers := s.callers.set i (spec, .done (.ok v)) }
        | none => none
      | .erred =>
        match s.tasks.get? t with
        | some task =>
          match task.errSlot with
          | some e =>
            some { s with
              callers := s.callers.set i (spec, .done (.cacheError e)),
              tasks := s.tasks.set t { task with errSlot := none } }
          | none =>
            some { s with callers := s.callers.set i (spec, .done .coalescedOperationFailed) }
        | none => none
      | .closed =>
        some { s with callers := s.callers.set i (spec, .done .cancelled) }
    | _ => none

/-- Run a list of transitions from a state. -/
def runSteps : List CacheMapStep → CacheMapState Val Err → Option (CacheMapState Val Err)
  | [], s => some s
  | step :: rest, s =>
    match applyStep step s with
    | some s' => runSteps rest s'
    | none => none

/-! ## SubdirSource construction and panic propagation
(crates/rattler_repodata_gateway/src/gateway/source/mod.rs) -/

/-- Model of SubdirSource::new (gateway/source/mod.rs lines 63-87): dispatch on
the scheme of the channel's platform url. The file arm delegates to from_path,
abstracted by the fromPath argument; the http and https arm is literally
unreachable!(), a panic; any other scheme is InvalidUrl. -/
def subdirSourceNew (scheme : String)
    (fromPath : Except SubdirSourceError SubdirData) :
    RustOutcome SubdirData SubdirSourceError :=
  if scheme = "file" then
    match fromPath with
    | .ok d => .returns d
    | .error e => .errs e
  else if scheme = "http" ∨ scheme = "https" then
    .panicked
  else .errs (.invalidUrl scheme)

/-- The producer that get_or_cache_subdir registers for a channel, abstracted
by the outcome of the SubdirSource::new future it wraps. -/
def producerOfSource : RustOutcome SubdirData SubdirSourceError →
    ProducerSpec SubdirData SubdirSourceError
  | .returns d => .ok d
  | .errs e => .fails e
  | .panicked => .panics

/-- Mapping of a get_or_cache outcome to the find_recursive_records result
(gateway/mod.rs lines 148-160 with the question-mark at line 167): a value is
used, a CacheError wraps into GatewayError::SubdirSourceError, every other
coalescing failure becomes GatewayError::Cancelled — in every case the call
returns a Result. -/
def gatewayOutcomeOfCall (c : Channel) (p : Platform) :
    CallOutcome SubdirData SubdirSourceError → Except GatewayError SubdirData
  | .ok v => .ok v
  | .cacheError e => .error (.subdirSourceError c p e)
  | .coalescedOperationFailed => .error .cancelled
  | .cancelled => .error .cancelled

/-- Canonical schedule of a single find_recursive_records caller constructing
the subdir of an https channel: miss the fast path, register the producer, let
the spawned SubdirSource::new future run (and panic), return from recv. -/
def httpsRunFinal : Option (CacheMapState SubdirData SubdirSourceError) :=
  runSteps [.fastPath 0, .lockCheck 0, .taskComplete 0, .receive 0]
    (initState [producerOfSource (subdirSourceNew "https" (.error .ioError))])

/-- Result of the modelled find_recursive_records call over an https channel:
the outcome of its get_or_cache call pushed through the error handling of the
pending-future loop. RustOutcome.panicked would model the call itself
panicking; the panic of the producer happens on the detached tokio task, so the
caller observes its recv fail instead. -/
def findRecursiveRecordsHttps : RustOutcome (Except GatewayError SubdirData) Unit :=
  match httpsRunFinal with
  | some s =>
    match s.callers.get? 0 with
    | some (_, .done o) => .returns (gatewayOutcomeOfCall "https-channel" .linux64 o)
    | _ => .panicked
  | none => .panicked

/-! ## The sparse-index HTTP fetcher
(crates/rattler_repodata_gateway/src/sparse_index/gateway/http.rs) -/

/-- A cache entry for a url: the serialized cache policy (carrying whether it
is fresh at request time) and the cached body bytes. -/
structure CacheEntry where
  policyFresh : Bool
  body : List UInt8
  deriving DecidableEq, Repr

/-- A network response for the url, available because fetch_and_cache always
executes the request. -/
structure NetResponse where
  status : Nat
  storable : Bool
  body : List UInt8
  deriving DecidableEq, Repr

/-- Observable result of http get: the returned status code, the bytes behind
the returned reader, whether a network request was issued, and the cache entry
for the url after the call. -/
structure GetResult where
  status : Nat
  body : List UInt8
  requestIssued : Bool
  cacheAfter : Option CacheEntry
  deriving DecidableEq, Repr

/-- Model of fetch_and_cache (http.rs lines 75-116): execute the GET
unconditionally, and on status 200 with a storable policy write the policy and
body into the cache and serve the body back from the written entry, otherwise
stream the body straight through. -/
def fetch_and_cache (cache : Option CacheEntry) (net : NetResponse) : GetResult :=
  if net.status = 200 ∧ net.storable then
    { status := net.status, body := net.body, requestIssued := true,
      cacheAfter := some { policyFresh := net.storable, body := net.body } }
  else
    { status := net.status, body := net.body, requestIssued := true,
      cacheAfter := cache }

/-- Model of get (http.rs lines 36-46): the cache lookup that would consult
get_from_cache is commented out in the source, so the call delegates to
fetch_and_cache unconditionally and the cached entry is never read. -/
def get (cache : Option CacheEntry) (net : NetResponse) : GetResult :=
  fetch_and_cache cache net

/-! ## Proof-level notions -/

/-- Contents a queried (channel, platform) pair contributes to the traversal:
the classified subdir data, empty for a tolerated missing subdir. -/
def classifiedData (sourceNew : Channel → Platform → Except SubdirSourceError SubdirData)
    (c : Channel) (p : Platform) : SubdirData :=
  match classifySubdirResult p (sourceNew c p) with
  | .ok (some d) => d
  | _ => []

/-- A package name is fetched in a result: every record the queried subdirs
hold for it appears in the result under the subdir's channel. -/
def Fetched (subdirs : List (Channel × Platform × SubdirData)) (m : PackageName)
    (result : List (Channel × RepoDataRecord)) : Prop :=
  ∀ sub ∈ subdirs, ∀ rec ∈ lookupRecords sub.2.2 m, (sub.1, rec) ∈ result

/-- Loop invariant of the traversal: pending names are seen; dependency names
of produced records are seen; and every seen name is either still pending or
already fetched. -/
def GatewayInv (subdirs : List (Channel × Platform × SubdirData))
    (st : GatewayLoopState) : Prop :=
  (∀ m ∈ st.pending, m ∈ st.seen) ∧
  (∀ cr ∈ st.result, ∀ dep ∈ cr.2.depends, extractDepName dep ∈ st.seen) ∧
  (∀ m ∈ st.seen, m ∈ st.pending ∨ Fetched subdirs m st.result)

/-- A caller phase past the in-flight critical section (or past a fast-path
hit): neither start nor missed. -/
def phaseAdvanced : CallerPhase Val Err → Bool
  | .start => false
  | .missed => false
  | _ => true

/-- Number of callers past the critical section; at most one producer was
started per such caller. -/
def countAdvanced (s : CacheMapState Val Err) : Nat :=
  s.callers.countP (fun c => phaseAdvanced c.2)

/-! ## Helper lemmas: dependency extraction and expansion -/

theorem extractDepName_cons_of_ne (c : Char) (cs : List Char) (h : c ≠ ' ') :
    extractDepName (c :: cs) = c :: extractDepName cs := by
  unfold extractDepName
  simp only [split_once, h, if_false]
  cases hs : split_once cs <;> simp [hs]

theorem extractDepName_eq_takeWhile (dep : List Char) :
    extractDepName dep = dep.takeWhile (fun c => c != ' ') := by
  induction dep with
  | nil => rfl
  | cons c cs ih =>
    by_cases hc : c = ' '
    · subst hc
      simp [extractDepName, split_once, List.takeWhile_cons]
    · rw [extractDepName_cons_of_ne c cs hc]
      simp [List.takeWhile_cons, hc, ih]

theorem depStep_seen_mono (st : List PackageName × List PackageName) (d : List Char)
    (m : PackageName) (h : m ∈ st.1) : m ∈ (depStep st d).1 := by
  unfold depStep
  split
  · exact h
  · exact List.mem_append_left _ h

theorem depStep_pending_mono (st : List PackageName × List PackageName) (d : List Char)
    (m : PackageName) (h : m ∈ st.2) : m ∈ (depStep st d).2 := by
  unfold depStep
  split
  · exact h
  · exact List.mem_append_left _ h

theorem depStep_self_seen (st : List PackageName × List PackageName) (d : List Char) :
    extractDepName d ∈ (depStep st d).1 := by
  unfold depStep
  split
  · assumption
  · exact List.mem_append_right _ (List.mem_singleton.mpr rfl)

theorem foldl_depStep_seen_mono (deps : List (List Char)) :
    ∀ st (m : PackageName), m ∈ st.1 → m ∈ (deps.foldl depStep st).1 := by
  induction deps with
  | nil => intro st m h; exact h
  | cons d ds ih =>
    intro st m h
    rw [List.foldl_cons]
    exact ih _ m (depStep_seen_mono st d m h)

theorem foldl_depStep_pending_mono (deps : List (List Char)) :
    ∀ st (m : PackageName), m ∈ st.2 → m ∈ (deps.foldl depStep st).2 := by
  induction deps with
  | nil => intro st m h; exact h
  | cons d ds ih =>
    intro st m h
    rw [List.foldl_cons]
    exact ih _ m (depStep_pending_mono st d m h)

theorem foldl_depStep_complete (deps : List (List Char)) :
    ∀ st d, d ∈ deps → extractDepName d ∈ (deps.foldl depStep st).1 := by
  induction deps with
  | nil => intro st d h; cases h
  | cons d0 ds ih =>
    intro st d h
    rcases List.mem_cons.mp h with rfl | hd
    · rw [List.foldl_cons]
      exact foldl_depStep_seen_mono ds _ _ (depStep_self_seen st d)
    · rw [List.foldl_cons]
      exact ih _ d hd

theorem foldl_depStep_pending_sub (deps : List (List Char)) :
    ∀ st m, m ∈ (deps.foldl depStep st).2 →
      m ∈ st.2 ∨ ∃ d ∈ deps, m = extractDepName d := by
  induction deps with
  | nil => intro st m h; exact Or.inl h
  | cons d0 ds ih =>
    intro st m h
    rw [List.foldl_cons] at h
    rcases ih _ m h with hm | ⟨d, hd, rfl⟩
    · unfold depStep at hm
      split at hm
      · exact Or.inl hm
      · rcases List.mem_append.mp hm with hm | hm
        · exact Or.inl hm
        · exact Or.inr ⟨d0, List.mem_cons_self _ _, (List.mem_singleton.mp hm)⟩
    · exact Or.inr ⟨d, List.mem_cons_of_mem _ hd, rfl⟩

theorem foldl_depStep_seen_sub (deps : List (List Char)) :
    ∀ st m, m ∈ (deps.foldl depStep st).1 →
      m ∈ st.1 ∨ m ∈ (deps.foldl depStep st).2 := by
  induction deps with
  | nil => intro st m h; exact Or.inl h
  | cons d0 ds ih =>
    intro st m h
    rw [List.foldl_cons] at h ⊢
    rcases ih _ m h with hm | hm
    · unfold depStep at hm
      split at hm
      · exact Or.inl hm
      · rcases List.mem_append.mp hm with hm | hm
        · exact Or.inl hm
        · refine Or.inr (foldl_depStep_pending_mono ds _ m ?_)
          rw [List.mem_singleton.mp hm]
          unfold depStep
          split
          · rename_i hin
            exact absurd hin (by assumption)
          · exact List.mem_append_right _ (List.mem_singleton.mpr rfl)
    · exact Or.inr hm

theorem addDependencies_seen_mono (records : List RepoDataRecord) :
    ∀ st (m : PackageName), m ∈ st.1 → m ∈ (addDependencies records st).1 := by
  induction records with
  | nil => intro st m h; exact h
  | cons r rs ih =>
    intro st m h
    exact ih _ m (foldl_depStep_seen_mono _ _ m h)

theorem addDependencies_pending_mono (records : List RepoDataRecord) :
    ∀ st (m : PackageName), m ∈ st.2 → m ∈ (addDependencies records st).2 := by
  induction records with
  | nil => intro st m h; exact h
  | cons r rs ih =>
    intro st m h
    exact ih _ m (foldl_depStep_pending_mono _ _ m h)

theorem addDependencies_complete (records : List RepoDataRecord) :
    ∀ st, ∀ r ∈ records, ∀ dep ∈ r.depends,
      extractDepName dep ∈ (addDependencies records st).1 := by
  induction records with
  | nil => intro st r h; cases h
  | cons r0 rs ih =>
    intro st r hr dep hdep
    rcases List.mem_cons.mp hr with rfl | hr
    · exact addDependencies_seen_mono rs _ _ (foldl_depStep_complete _ _ dep hdep)
    · exact ih _ r hr dep hdep

theorem addDependencies_pending_sub (records : List RepoDataRecord) :
    ∀ st m, m ∈ (addDependencies records st).2 →
      m ∈ st.2 ∨ ∃ r ∈ records, ∃ dep ∈ r.depends, m = extractDepName dep := by
  induction records with
  | nil => intro st m h; exact Or.inl h
  | cons r0 rs ih =>
    intro st m h
    rcases ih _ m h with hm | ⟨r, hr, dep, hdep, rfl⟩
    · rcases foldl_depStep_pending_sub _ _ m hm with hm | ⟨d, hd, rfl⟩
      · exact Or.inl hm
      · exact Or.inr ⟨r0, List.mem_cons_self _ _, d, hd, rfl⟩
    · exact Or.inr ⟨r, List.mem_cons_of_mem _ hr, dep, hdep, rfl⟩

theorem addDependencies_seen_sub (records : List RepoDataRecord) :
    ∀ st m, m ∈ (addDependencies records st).1 →
      m ∈ st.1 ∨ m ∈ (addDependencies records st).2 := by
  induction records with
  | nil => intro st m h; exact Or.inl h
  | cons r0 rs ih =>
    intro st m h
    rcases ih _ m h with hm | hm
    · rcases foldl_depStep_seen_sub _ _ m hm with hm | hm
      · exact Or.inl hm
      · exact Or.inr (addDependencies_pending_mono rs _ m hm)
    · exact Or.inr hm

/-! ## Claim theorems: C6, C7, C8, C10 -/

/-- Counterexample for C8: the name éa has byte length 3 (é is two bytes), so
sparse_index_filename slices it at the byte range 0..1 - inside the character
é - and panics, rather than returning the shard path 3/<first byte>/éa.json.zst
that the claim asserts for every byte-length-3 name. -/
theorem c8_counterexample :
    utf8Len ['é', 'a'] = 3 ∧
    sparse_index_filename ['é', 'a'] = .panicked ∧
    (RustOutcome.panicked :
        RustOutcome (List (List UInt8)) SparseIndexFilenameError) ≠
      .returns [[51], [195], utf8Bytes ['é', 'a'] ++ jsonZstExt] :=
  ⟨rfl, rfl, by decide⟩

/-- Claim C8, amended: the empty name is an EmptyFilename error; byte-length
one and two names map unconditionally to 1/name.ext and 2/name.ext; a
byte-length-3 name maps to 3/seg/name.ext when its first byte is a whole
character (seg = that character) and panics at the slice 0..1 otherwise; a
name of byte length at least four maps to seg1/seg2/name.ext when the byte
ranges 0..2 and 2..4 fall on character boundaries and panics otherwise. The
extension bytes are jsonZstExt. -/
theorem c8_sparse_index_filename (n : List Char) :
    (utf8Len n = 0 → sparse_index_filename n = .errs .emptyFilename) ∧
    (utf8Len n = 1 →
      sparse_index_filename n = .returns [[49], utf8Bytes n ++ jsonZstExt]) ∧
    (utf8Len n = 2 →
      sparse_index_filename n = .returns [[50], utf8Bytes n ++ jsonZstExt]) ∧
    (∀ seg, utf8Len n = 3 → takeBytes n 1 = some seg →
      sparse_index_filename n =
        .returns [[51], utf8Bytes seg, utf8Bytes n ++ jsonZstExt]) ∧
    (utf8Len n = 3 → takeBytes n 1 = none →
      sparse_index_filename n = .panicked) ∧
    (∀ seg1 seg2, 4 ≤ utf8Len n → takeBytes n 2 = some seg1 →
      (dropBytes n 2).bind (fun t => takeBytes t 2) = some seg2 →
      sparse_index_filename n =
        .returns [utf8Bytes seg1, utf8Bytes seg2, utf8Bytes n ++ jsonZstExt]) ∧
    (4 ≤ utf8Len n →
      (takeBytes n 2 = none ∨
        (dropBytes n 2).bind (fun t => takeBytes t 2) = none) →
      sparse_index_filename n = .panicked) := by
  refine ⟨?_, ?_, ?_, ?_, ?_, ?_, ?_⟩
  · intro h; simp [sparse_index_filename, h]
  · intro h; simp [sparse_index_filename, h]
  · intro h; simp [sparse_index_filename, h]
  · intro seg h hseg; simp [sparse_index_filename, h, hseg]
  · intro h hseg; simp [sparse_index_filename, h, hseg]
  · intro seg1 seg2 h hseg1 hseg2
    obtain ⟨k, hk⟩ := Nat.exists_eq_add_of_le h
    rw [Nat.add_comm] at hk
    simp [sparse_index_filename, hk, hseg1, hseg2]
  · intro h hnone
    obtain ⟨k, hk⟩ := Nat.exists_eq_add_of_le h
    rw [Nat.add_comm] at hk
    rcases hnone with hseg1 | hseg2
    · simp [sparse_index_filename, hk, hseg1]
    · simp [sparse_index_filename, hk, hseg2]
      split <;> rfl

/-- Witness for C8 at the six-byte ASCII name python, through the
byte-length-at-least-four returning conjunct. -/
theorem c8_sparse_index_filename_witness :
    4 ≤ utf8Len "python".toList ∧
    sparse_index_filename "python".toList =
      .returns [utf8Bytes ['p', 'y'], utf8Bytes ['t', 'h'],
        utf8Bytes "python".toList ++ jsonZstExt] :=
  ⟨by decide,
    (c8_sparse_index_filename "python".toList).2.2.2.2.2.1 ['p', 'y'] ['t', 'h']
      (by decide) rfl rfl⟩

/-- Claim C6: the code of get in sparse_index/gateway/http.rs never consults
the cache entry: the lookup is commented out and the call delegates to
fetch_and_cache, which executes the GET request unconditionally. Consequently
a network request is issued for every url, also when a fresh cache entry
exists, contradicting the claimed frame effect. -/
theorem c6_get_always_issues_request (cache : Option CacheEntry) (net : NetResponse) :
    (get cache net).requestIssued = true := by
  unfold get fetch_and_cache
  split <;> rfl

/-- Counterexample for C7: the dependency spec made of a space followed by the
letter a has a leading whitespace, so the claim says it is ignored and
contributes no pending package name; the code extracts the empty name (the
part before the first space) and pushes it onto both seen and pending. Also,
the spec a-tab-b is split at the first space, not at the first whitespace: the
extracted name keeps the tab. -/
theorem c7_counterexample :
    extractDepName [' ', 'a'] = [] ∧
    extractDepNameSpec [' ', 'a'] = none ∧
    addDependencies [{ file_name := "pkg-1.tar.bz2", depends := [[' ', 'a']] }] ([], []) =
      ([[]], [[]]) ∧
    ([[]] : List PackageName) ≠ [] ∧
    extractDepName ['a', '\t', 'b'] = ['a', '\t', 'b'] ∧
    extractDepName ['a', '\t', 'b'] ≠ ['a'] := by
  refine ⟨rfl, rfl, rfl, by decide, rfl, by decide⟩

/-- Claim C7 as amended: the extracted package name is everything before the
first space character (the whole spec when it has no space), and no spec is
ignored: the extracted name of every dependency of every record - including
empty names from specs with leading spaces - lands in the seen set, and every
name newly appended to pending is such an extracted name. -/
theorem c7_extraction_amended :
    (∀ dep : List Char, extractDepName dep = dep.takeWhile (fun c => c != ' ')) ∧
    (∀ records st, ∀ r ∈ records, ∀ dep ∈ r.depends,
      extractDepName dep ∈ (addDependencies records st).1) ∧
    (∀ records st m, m ∈ (addDependencies records st).2 →
      m ∈ st.2 ∨ ∃ r ∈ records, ∃ dep ∈ r.depends, m = extractDepName dep) :=
  ⟨extractDepName_eq_takeWhile,
   fun records st r hr dep hdep => addDependencies_complete records st r hr dep hdep,
   fun records st m h => addDependencies_pending_sub records st m h⟩

/-- Witness for C7: the record depending on the spec b-space-c contributes the
extracted name b to the seen set. -/
theorem c7_extraction_witness :
    ({ file_name := "x.conda", depends := [['b', ' ', 'c']] } : RepoDataRecord) ∈
      [({ file_name := "x.conda", depends := [['b', ' ', 'c']] } : RepoDataRecord)] ∧
    ['b', ' ', 'c'] ∈
      ({ file_name := "x.conda", depends := [['b', ' ', 'c']] } : RepoDataRecord).depends ∧
    extractDepName ['b', ' ', 'c'] ∈
      (addDependencies [{ file_name := "x.conda", depends := [['b', ' ', 'c']] }]
        ([], [])).1 :=
  ⟨List.mem_singleton.mpr rfl, List.mem_singleton.mpr rfl,
   c7_extraction_amended.2.1
     [{ file_name := "x.conda", depends := [['b', ' ', 'c']] }] ([], [])
     { file_name := "x.conda", depends := [['b', ' ', 'c']] }
     (List.mem_singleton.mpr rfl) ['b', ' ', 'c'] (List.mem_singleton.mpr rfl)⟩

/-- Counterexample for C10: SubdirSource::new does hit unreachable!() for the
https scheme, but the panic happens inside the producer future that
get_or_cache spawns on a detached task; the caller of find_recursive_records
observes the broadcast channel closing and the modelled call returns the
Result Err(GatewayError::Cancelled) instead of panicking. -/
theorem c10_counterexample :
    subdirSourceNew "https" (.error .ioError) = .panicked ∧
    findRecursiveRecordsHttps = .returns (.error GatewayError.cancelled) ∧
    (RustOutcome.returns (Except.error GatewayError.cancelled) :
      RustOutcome (Except GatewayError SubdirData) Unit) ≠ .panicked :=
  ⟨rfl, rfl, by simp⟩

/-- Claim C10 as amended: for http and https channel urls SubdirSource::new
reaches unreachable!() and panics instead of building a remote source or
returning an error; the panic occurs on the detached producer task, so
find_recursive_records itself returns Err(GatewayError::Cancelled) rather than
panicking. -/
theorem c10_http_scheme_panics :
    (∀ fromPath, subdirSourceNew "http" fromPath = .panicked) ∧
    (∀ fromPath, subdirSourceNew "https" fromPath = .panicked) ∧
    findRecursiveRecordsHttps = .returns (.error GatewayError.cancelled) :=
  ⟨fun _ => rfl, fun _ => rfl, rfl⟩

/-! ## Helper lemmas: manifest round trips -/

theorem readUntilNul_append_nul (n t : List UInt8) (h : (0 : UInt8) ∉ n) :
    readUntilNul (n ++ 0 :: t) = (n, true, t) := by
  induction n with
  | nil => simp [readUntilNul]
  | cons b bs ih =>
    have hb : ¬ b = 0 := fun hb => h (hb ▸ List.mem_cons_self b bs)
    have h' : (0 : UInt8) ∉ bs := fun hm => h (List.mem_cons_of_mem _ hm)
    simp only [List.cons_append, readUntilNul, hb, if_false, List.append_eq, ih h']

theorem parseNamesEntriesGo_roundtrip (entries : List (List UInt8 × List UInt8)) :
    ∀ fuel : Nat,
      ((entries.map (fun e => e.1 ++ [0] ++ e.2)).foldr (· ++ ·) []).length ≤ fuel →
      (∀ e ∈ entries, (0 : UInt8) ∉ e.1 ∧ e.2.length = 8) →
      parseNamesEntriesGo fuel
        ((entries.map (fun e => e.1 ++ [0] ++ e.2)).foldr (· ++ ·) []) = some entries := by
  induction entries with
  | nil => intro fuel _ _; cases fuel <;> rfl
  | cons e rest ih =>
    intro fuel hfuel hok
    obtain ⟨hnul, hlen⟩ := hok e (List.mem_cons_self e rest)
    set restPayload := ((rest.map (fun e => e.1 ++ [0] ++ e.2)).foldr (· ++ ·) [])
      with hrest
    have hshape : ((e :: rest).map (fun e => e.1 ++ [0] ++ e.2)).foldr (· ++ ·) [] =
        e.1 ++ 0 :: (e.2 ++ restPayload) := by
      simp [hrest, List.append_assoc]
    rw [hshape] at hfuel ⊢
    have hlen1 : 1 ≤ (e.1 ++ 0 :: (e.2 ++ restPayload)).length := by
      simp
      omega
    obtain ⟨f, rfl⟩ : ∃ f, fuel = f + 1 := by
      cases fuel with
      | zero => omega
      | succ f => exact ⟨f, rfl⟩
    rcases hp : e.1 ++ 0 :: (e.2 ++ restPayload) with _ | ⟨b, bs⟩
    · exact absurd hp (by simp)
    · rw [← hp]
      have hread : readUntilNul (e.1 ++ 0 :: (e.2 ++ restPayload)) =
          (e.1, true, e.2 ++ restPayload) := readUntilNul_append_nul _ _ hnul
      have hdrop : (e.2 ++ restPayload).drop 8 = restPayload := by
        rw [← hlen, List.drop_left]
      have htake : (e.2 ++ restPayload).take 8 = e.2 := by
        rw [← hlen, List.take_left]
      have hrecur : parseNamesEntriesGo f restPayload = some rest := by
        apply ih f _ (fun x hx => hok x (List.mem_cons_of_mem _ hx))
        have := hfuel
        simp only [List.length_append, List.length_cons] at this
        omega
      rw [hp]
      show parseNamesEntriesGo (f + 1) (b :: bs) = some (e :: rest)
      unfold parseNamesEntriesGo
      rw [← hp, hread]
      simp only [List.length_append]
      rw [if_pos (by omega)]
      rw [hdrop, htake, hrecur]
      rfl

theorem namesToBytes_roundtrip (entries : List (List UInt8 × List UInt8))
    (hok : ∀ e ∈ entries, (0 : UInt8) ∉ e.1 ∧ e.2.length = 8) :
    namesFromBytes (namesToBytes entries) = some entries := by
  have h := parseNamesEntriesGo_roundtrip entries _ le_rfl hok
  exact h

theorem parseDepsDepsGo_roundtrip (deps : List (List UInt8)) :
    ∀ (fuel : Nat) (t : List UInt8),
      ((deps.map (fun d => d ++ [0])).foldr (· ++ ·) [] ++ 0 :: t).length ≤ fuel →
      (∀ d ∈ deps, (0 : UInt8) ∉ d ∧ d ≠ []) →
      parseDepsDepsGo fuel ((deps.map (fun d => d ++ [0])).foldr (· ++ ·) [] ++ 0 :: t) =
        some (deps, t) := by
  induction deps with
  | nil =>
    intro fuel t hfuel _
    obtain ⟨f, rfl⟩ : ∃ f, fuel = f + 1 := by
      cases fuel with
      | zero => simp at hfuel
      | succ f => exact ⟨f, rfl⟩
    simp [parseDepsDepsGo, readUntilNul]
  | cons d ds ih =>
    intro fuel t hfuel hok
    obtain ⟨hnul, hne⟩ := hok d (List.mem_cons_self d ds)
    set restEnc := ((ds.map (fun d => d ++ [0])).foldr (· ++ ·) []) with hrestEnc
    have hshape : ((d :: ds).map (fun d => d ++ [0])).foldr (· ++ ·) [] ++ 0 :: t =
        d ++ 0 :: (restEnc ++ 0 :: t) := by
      simp [hrestEnc, List.append_assoc]
    rw [hshape] at hfuel ⊢
    obtain ⟨f, rfl⟩ : ∃ f, fuel = f + 1 := by
      cases fuel with
      | zero => simp at hfuel
      | succ f => exact ⟨f, rfl⟩
    have hdlen : 1 ≤ d.length := by
      cases d with
      | nil => exact absurd rfl hne
      | cons _ _ => simp
    have hrecur : parseDepsDepsGo f (restEnc ++ 0 :: t) = some (ds, t) := by
      apply ih f t _ (fun x hx => hok x (List.mem_cons_of_mem _ hx))
      have := hfuel
      simp only [List.length_append, List.length_cons] at this ⊢
      omega
    unfold parseDepsDepsGo
    rw [readUntilNul_append_nul _ _ hnul]
    simp only [if_true]
    rw [if_neg (by omega), if_neg (by omega)]
    simp only [hrecur]
    rfl

theorem parseDepsEntriesGo_roundtrip (entries : List (List UInt8 × List (List UInt8))) :
    ∀ fuel : Nat,
      ((entries.map (fun e =>
          e.1 ++ [0] ++ (e.2.map (fun d => d ++ [0])).foldr (· ++ ·) [] ++ [0])).foldr
        (· ++ ·) []).length ≤ fuel →
      (∀ e ∈ entries, (0 : UInt8) ∉ e.1 ∧ ∀ d ∈ e.2, (0 : UInt8) ∉ d ∧ d ≠ []) →
      parseDepsEntriesGo fuel
        ((entries.map (fun e =>
          e.1 ++ [0] ++ (e.2.map (fun d => d ++ [0])).foldr (· ++ ·) [] ++ [0])).foldr
          (· ++ ·) []) = some entries := by
  induction entries with
  | nil => intro fuel _ _; cases fuel <;> rfl
  | cons e rest ih =>
    intro fuel hfuel hok
    obtain ⟨hnul, hdeps⟩ := hok e (List.mem_cons_self e rest)
    set restPayload := ((rest.map (fun e =>
        e.1 ++ [0] ++ (e.2.map (fun d => d ++ [0])).foldr (· ++ ·) [] ++ [0])).foldr
      (· ++ ·) []) with hrest
    set depsEnc := ((e.2.map (fun d => d ++ [0])).foldr (· ++ ·) []) with hdepsEnc
    have hshape : ((e :: rest).map (fun e =>
        e.1 ++ [0] ++ (e.2.map (fun d => d ++ [0])).foldr (· ++ ·) [] ++ [0])).foldr
          (· ++ ·) [] = e.1 ++ 0 :: (depsEnc ++ 0 :: restPayload) := by
      simp [hrest, hdepsEnc, List.append_assoc]
    rw [hshape] at hfuel ⊢
    obtain ⟨f, rfl⟩ : ∃ f, fuel = f + 1 := by
      cases fuel with
      | zero => simp at hfuel
      | succ f => exact ⟨f, rfl⟩
    rcases hp : e.1 ++ 0 :: (depsEnc ++ 0 :: restPayload) with _ | ⟨b, bs⟩
    · exact absurd hp (by simp)
    · rw [← hp]
      have hread : readUntilNul (e.1 ++ 0 :: (depsEnc ++ 0 :: restPayload)) =
          (e.1, true, depsEnc ++ 0 :: restPayload) := readUntilNul_append_nul _ _ hnul
      have hinner : parseDepsDepsGo ((depsEnc ++ 0 :: restPayload).length + 1)
          (depsEnc ++ 0 :: restPayload) = some (e.2, restPayload) := by
        apply parseDepsDepsGo_roundtrip e.2 _ restPayload _ hdeps
        rw [← hdepsEnc]
        simp only [List.length_append, List.length_cons]
        omega
      have hrecur : parseDepsEntriesGo f restPayload = some rest := by
        apply ih f _ (fun x hx => hok x (List.mem_cons_of_mem _ hx))
        have := hfuel
        simp only [List.length_append, List.length_cons] at this
        omega
      rw [hp]
      show parseDepsEntriesGo (f + 1) (b :: bs) = some (e :: rest)
      unfold parseDepsEntriesGo
      rw [← hp, hread]
      simp only [hinner]
      simp only [hrecur]
      rfl

theorem depsToBytes_roundtrip (entries : List (List UInt8 × List (List UInt8)))
    (hok : ∀ e ∈ entries, (0 : UInt8) ∉ e.1 ∧ ∀ d ∈ e.2, (0 : UInt8) ∉ d ∧ d ≠ []) :
    depsFromBytes (depsToBytes entries) = some entries := by
  have h := parseDepsEntriesGo_roundtrip entries _ le_rfl hok
  exact h

/-! ## Claim theorems: C9 -/

/-- Counterexample for C9: the dependencies map with the single package p whose
dependency set holds the empty name satisfies the claim's hypotheses (no name
contains a NUL byte), yet serializing and re-parsing does not return the
original map: the empty dependency name serializes to a lone NUL, which the
reader takes for the entry terminator, and parsing fails. -/
theorem c9_counterexample :
    ((0 : UInt8) ∉ ([112] : List UInt8)) ∧
    ((0 : UInt8) ∉ ([] : List UInt8)) ∧
    depsFromBytes (depsToBytes [([112], [[]])]) ≠ some [([112], [[]])] := by
  refine ⟨by decide, by decide, by decide⟩

/-- Claim C9 as amended: the NamesManifest writer and reader are mutual
inverses for maps whose package names contain no NUL byte (hashes are the
8-byte arrays the Rust type prescribes), and the DependenciesManifest writer
and reader are mutual inverses for maps whose package and dependency names
contain no NUL byte and whose dependency names are non-empty. -/
theorem c9_manifest_roundtrip :
    (∀ entries : List (List UInt8 × List UInt8),
      (∀ e ∈ entries, (0 : UInt8) ∉ e.1 ∧ e.2.length = 8) →
      namesFromBytes (namesToBytes entries) = some entries) ∧
    (∀ entries : List (List UInt8 × List (List UInt8)),
      (∀ e ∈ entries, (0 : UInt8) ∉ e.1 ∧ ∀ d ∈ e.2, (0 : UInt8) ∉ d ∧ d ≠ []) →
      depsFromBytes (depsToBytes entries) = some entries) :=
  ⟨namesToBytes_roundtrip, depsToBytes_roundtrip⟩

/-- Witness for C9 at a one-entry names map and a one-entry dependencies map. -/
theorem c9_manifest_roundtrip_witness :
    namesFromBytes (namesToBytes [([97, 98], [1, 2, 3, 4, 5, 6, 7, 8])]) =
      some [([97, 98], [1, 2, 3, 4, 5, 6, 7, 8])] ∧
    depsFromBytes (depsToBytes [([97], [[98], [99, 100]])]) =
      some [([97], [[98], [99, 100]])] :=
  ⟨c9_manifest_roundtrip.1 _ (by decide), c9_manifest_roundtrip.2 _ (by decide)⟩

/-! ## Helper lemmas: subdir construction errors -/

theorem buildSubdirsGo_error_of_mem
    (src : Channel → Platform → Except SubdirSourceError SubdirData) :
    ∀ (l : List (Channel × Platform)) (cp : Channel × Platform) (e : SubdirSourceError),
      cp ∈ l → classifySubdirResult cp.2 (src cp.1 cp.2) = .error e →
      ∃ c' p' e', buildSubdirsGo src l =
        .error (.subdirSourceError c' p' e') := by
  intro l
  induction l with
  | nil => intro cp e h; cases h
  | cons hd tl ih =>
    intro cp e hmem hcl
    rcases List.mem_cons.mp hmem with rfl | hmem
    · refine ⟨cp.1, cp.2, e, ?_⟩
      unfold buildSubdirsGo
      rw [hcl]
    · cases hc : classifySubdirResult hd.2 (src hd.1 hd.2) with
      | ok o =>
        obtain ⟨c', p', e', h'⟩ := ih cp e hmem hcl
        refine ⟨c', p', e', ?_⟩
        cases o with
        | some d =>
          unfold buildSubdirsGo
          rw [hc, h']
          rfl
        | none =>
          unfold buildSubdirsGo
          rw [hc, h']
          rfl
      | error e0 =>
        refine ⟨hd.1, hd.2, e0, ?_⟩
        unfold buildSubdirsGo
        rw [hc]

/-! ## Claim theorems: C5 -/

/-- Claim C5: during subdir construction a NotFound error on a platform other
than NoArch is classified Ok(None), so the traversal proceeds with an empty
contribution; a NotFound on NoArch, and any error other than NotFound, is
propagated, and a propagated construction error fails the whole
find_recursive_records call (which returns a SubdirSourceError-wrapped
error). -/
theorem c5_subdir_error_classification :
    (∀ (path : String) (platform : Platform), platform ≠ .noArch →
      classifySubdirResult platform (.error (.notFound path)) = .ok none) ∧
    (∀ path : String,
      classifySubdirResult .noArch (.error (.notFound path)) =
        .error (.notFound path)) ∧
    (∀ (platform : Platform) (e : SubdirSourceError),
      (∀ path, e ≠ .notFound path) →
      classifySubdirResult platform (.error e) = .error e) ∧
    (∀ (src : Channel → Platform → Except SubdirSourceError SubdirData)
       (channels : List Channel) (platforms : List Platform)
       (roots : List PackageName) (fuel : Nat) (cp : Channel × Platform)
       (e : SubdirSourceError),
      cp ∈ subdirPairs channels platforms →
      classifySubdirResult cp.2 (src cp.1 cp.2) = .error e →
      roots.eraseDups ≠ [] →
      ∃ c' p' e', find_recursive_records src channels platforms roots fuel =
        some (.error (.subdirSourceError c' p' e'))) := by
  refine ⟨?_, ?_, ?_, ?_⟩
  · intro path platform h
    simp [classifySubdirResult, h]
  · intro path
    simp [classifySubdirResult]
  · intro platform e h
    cases e with
    | invalidPath u => simp [classifySubdirResult]
    | invalidUrl u => simp [classifySubdirResult]
    | ioError => simp [classifySubdirResult]
    | notFound p => exact absurd rfl (h p)
    | pathDoesNotContainRepoData p => simp [classifySubdirResult]
    | cancelled => simp [classifySubdirResult]
  · intro src channels platforms roots fuel cp e hmem hcl hne
    obtain ⟨c', p', e', hbuild⟩ := buildSubdirsGo_error_of_mem src _ cp e hmem hcl
    refine ⟨c', p', e', ?_⟩
    unfold find_recursive_records buildSubdirs
    rw [if_neg hne, hbuild]

/-- Witness for C5: a missing linux-64 subdir is tolerated, and an io error on
construction fails a one-root call. -/
theorem c5_subdir_error_classification_witness :
    (Platform.linux64 ≠ Platform.noArch ∧
      classifySubdirResult .linux64 (.error (.notFound "conda-forge/linux-64")) =
        .ok none) ∧
    ∃ c' p' e',
      find_recursive_records (fun _ _ => .error .ioError) ["conda-forge"]
        [.linux64] [['a']] 3 = some (.error (.subdirSourceError c' p' e')) :=
  ⟨⟨by decide,
    c5_subdir_error_classification.1 "conda-forge/linux-64" .linux64 (by decide)⟩,
   c5_subdir_error_classification.2.2.2 (fun _ _ => .error .ioError)
     ["conda-forge"] [.linux64] [['a']] 3 ("conda-forge", .linux64) .ioError
     (by decide) rfl (by decide)⟩

/-! ## Helper lemmas: the coalescing-map transition system -/

theorem applyStep_spec {Val Err : Type} (step : CacheMapStep) (s s' : CacheMapState Val Err)
    (h : applyStep step s = some s') :
    (∃ i spec v, s.callers.get? i = some (spec, .start) ∧ s.value = some v ∧
      s' = { s with callers := s.callers.set i (spec, .done (.ok v)) }) ∨
    (∃ i spec, s.callers.get? i = some (spec, .start) ∧ s.value = none ∧
      s' = { s with callers := s.callers.set i (spec, .missed) }) ∨
    (∃ i spec t, s.callers.get? i = some (spec, .missed) ∧ s.inFlight = .live t ∧
      s' = { s with callers := s.callers.set i (spec, .waiting t) }) ∨
    (∃ i spec, s.callers.get? i = some (spec, .missed) ∧
      (∀ t, ¬ s.inFlight = .live t) ∧
      s' = { s with
        callers := s.callers.set i (spec, .waiting s.tasks.length),
        tasks := s.tasks ++ [{ spec := spec, finished := false, errSlot := none }],
        inFlight := .live s.tasks.length,
        invocations := s.invocations + 1 }) ∨
    (∃ t task v, s.tasks.get? t = some task ∧ (task.finished = true → False) ∧
      task.spec = .ok v ∧
      s' = { s with
        value := some (s.value.getD v),
        callers := deliverToWaiters s.callers t .okUnit,
        tasks := s.tasks.set t { task with finished := true },
        inFlight := .absent }) ∨
    (∃ t task e, s.tasks.get? t = some task ∧ (task.finished = true → False) ∧
      task.spec = .fails e ∧
      s' = { s with
        callers := deliverToWaiters s.callers t .erred,
        tasks := s.tasks.set t { task with finished := true, errSlot := some e },
        inFlight := .absent }) ∨
    (∃ t task, s.tasks.get? t = some task ∧ (task.finished = true → False) ∧
      task.spec = .panics ∧
      s' = { s with
        callers := deliverToWaiters s.callers t .closed,
        tasks := s.tasks.set t { task with finished := true },
        inFlight := .dead }) ∨
    (∃ i spec t v, s.callers.get? i = some (spec, .received t .okUnit) ∧
      s.value = some v ∧
      s' = { s with callers := s.callers.set i (spec, .done (.ok v)) }) ∨
    (∃ i spec t task e, s.callers.get? i = some (spec, .received t .erred) ∧
      s.tasks.get? t = some task ∧ task.errSlot = some e ∧
      s' = { s with
        callers := s.callers.set i (spec, .done (.cacheError e)),
        tasks := s.tasks.set t { task with errSlot := none } }) ∨
    (∃ i spec t task, s.callers.get? i = some (spec, .received t .erred) ∧
      s.tasks.get? t = some task ∧ task.errSlot = none ∧
      s' = { s with callers := s.callers.set i (spec, .done .coalescedOperationFailed) }) ∨
    (∃ i spec t, s.callers.get? i = some (spec, .received t .closed) ∧
      s' = { s with callers := s.callers.set i (spec, .done .cancelled) }) := by
  unfold applyStep at h
  repeat' split at h
  all_goals first
    | exact Option.noConfusion h
    | (injection h with h
       subst h
       first
        | exact Or.inl ⟨_, _, _, by assumption, by assumption, rfl⟩
        | exact Or.inr (Or.inl ⟨_, _, by assumption, by assumption, rfl⟩)
        | exact Or.inr (Or.inr (Or.inl ⟨_, _, _, by assumption, by assumption, rfl⟩))
        | exact Or.inr (Or.inr (Or.inr (Or.inl
            ⟨_, _, by assumption, by assumption, rfl⟩)))
        | exact Or.inr (Or.inr (Or.inr (Or.inr (Or.inl
            ⟨_, _, _, by assumption, by assumption, by assumption, rfl⟩))))
        | exact Or.inr (Or.inr (Or.inr (Or.inr (Or.inr (Or.inl
            ⟨_, _, _, by assumption, by assumption, by assumption, rfl⟩)))))
        | exact Or.inr (Or.inr (Or.inr (Or.inr (Or.inr (Or.inr (Or.inl
            ⟨_, _, by assumption, by assumption, by assumption, rfl⟩))))))
        | exact Or.inr (Or.inr (Or.inr (Or.inr (Or.inr (Or.inr (Or.inr (Or.inl
            ⟨_, _, _, _, by assumption, by assumption, rfl⟩)))))))
        | exact Or.inr (Or.inr (Or.inr (Or.inr (Or.inr (Or.inr (Or.inr (Or.inr (Or.inl
            ⟨_, _, _, _, _, by assumption, by assumption, by assumption, rfl⟩))))))))
        | exact Or.inr (Or.inr (Or.inr (Or.inr (Or.inr (Or.inr (Or.inr (Or.inr (Or.inr
            (Or.inl ⟨_, _, _, _, by assumption, by assumption, by assumption, rfl⟩)))))))))
        | exact Or.inr (Or.inr (Or.inr (Or.inr (Or.inr (Or.inr (Or.inr (Or.inr (Or.inr
            (Or.inr ⟨_, _, _, by assumption, rfl⟩))))))))))

theorem runSteps_induct {Val Err : Type} (P : CacheMapState Val Err → Prop)
    (hstep : ∀ step s s', applyStep step s = some s' → P s → P s') :
    ∀ (steps : List CacheMapStep) (s s' : CacheMapState Val Err),
      runSteps steps s = some s' → P s → P s' := by
  intro steps
  induction steps with
  | nil =>
    intro s s' h hP
    unfold runSteps at h
    injection h with h
    exact h ▸ hP
  | cons step rest ih =>
    intro s s' h hP
    unfold runSteps at h
    split at h
    · rename_i s1 h1
      exact ih s1 s' h (hstep step s s1 h1 hP)
    · exact Option.noConfusion h

theorem countP_set_of_get? {α : Type} (p : α → Bool) :
    ∀ (l : List α) (i : Nat) (a b : α), l.get? i = some a →
      (l.set i b).countP p + (if p a then 1 else 0) =
        l.countP p + (if p b then 1 else 0) := by
  intro l
  induction l with
  | nil => intro i a b h; simp at h
  | cons x xs ih =>
    intro i a b h
    cases i with
    | zero =>
      simp only [List.get?] at h
      injection h with h
      subst h
      rcases hpx : p x <;> rcases hpb : p b <;>
        simp [List.set, List.countP_cons, hpx, hpb]
    | succ n =>
      simp only [List.get?] at h
      have := ih n a b h
      rcases hpx : p x <;>
        simp only [List.set, List.countP_cons, hpx] <;> omega

theorem countP_map_congr {α : Type} (p : α → Bool) (f : α → α) :
    ∀ l : List α, (∀ x ∈ l, p (f x) = p x) → (l.map f).countP p = l.countP p := by
  intro l
  induction l with
  | nil => intro _; rfl
  | cons x xs ih =>
    intro hpt
    simp only [List.map_cons, List.countP_cons]
    rw [ih (fun y hy => hpt y (List.mem_cons_of_mem _ hy)),
      hpt x (List.mem_cons_self x xs)]

theorem mem_deliverToWaiters {Val Err : Type}
    {callers : List (ProducerSpec Val Err × CallerPhase Val Err)} {t : Nat}
    {msg : BroadcastMsg} {c' : ProducerSpec Val Err × CallerPhase Val Err}
    (h : c' ∈ deliverToWaiters callers t msg) :
    ∃ c ∈ callers, c'.1 = c.1 ∧
      (c'.2 = c.2 ∨ (c.2 = .waiting t ∧ c'.2 = .received t msg)) := by
  obtain ⟨c, hc, hceq⟩ := List.mem_map.mp h
  refine ⟨c, hc, ?_⟩
  cases hph : c.2 with
  | waiting t' =>
    by_cases ht : t' = t
    · subst ht
      rw [← hceq]
      simp [hph]
    · rw [← hceq]
      simp [hph, ht]
  | start => rw [← hceq]; simp [hph]
  | missed => rw [← hceq]; simp [hph]
  | received t0 m0 => rw [← hceq]; simp [hph]
  | done o => rw [← hceq]; simp [hph]

theorem mem_set_of_get? {α : Type} {l : List α} {i : Nat} {a : α} (b : α)
    (h : l.get? i = some a) : b ∈ l.set i b := by
  have hlt : i < l.length := by
    by_contra hge
    rw [List.get?_eq_none.mpr (Nat.le_of_not_lt hge)] at h
    exact Option.noConfusion h
  exact List.get?_mem (List.get?_set_eq_of_lt b hlt)

theorem exists_mem_set_of_spec_eq {Val Err : Type} {l : List (TaskState Val Err)}
    {i : Nat} {a b : TaskState Val Err} (hga : l.get? i = some a)
    (hspec : b.spec = a.spec) {σ : ProducerSpec Val Err}
    (hx : ∃ x ∈ l, x.spec = σ) : ∃ y ∈ l.set i b, y.spec = σ := by
  obtain ⟨x, hxl, hxs⟩ := hx
  obtain ⟨j, hj⟩ := List.mem_iff_get?.mp hxl
  by_cases hij : j = i
  · subst hij
    rw [hj] at hga
    injection hga with hga
    exact ⟨b, mem_set_of_get? b hj, by rw [hspec, ← hga, hxs]⟩
  · refine ⟨x, ?_, hxs⟩
    apply List.get?_mem
    rw [List.get?_set_ne _ _ (fun heq => hij heq.symm)]
    exact hj

theorem applyStep_callers_length {Val Err : Type} (step : CacheMapStep)
    (s s' : CacheMapState Val Err) (h : applyStep step s = some s') :
    s'.callers.length = s.callers.length := by
  rcases applyStep_spec step s s' h with
    ⟨i, spec, v0, hg, hv, rfl⟩ | ⟨i, spec, hg, hv, rfl⟩ | ⟨i, spec, t, hg, hf, rfl⟩ |
    ⟨i, spec, hg, hf, rfl⟩ | ⟨t, task, v0, hg, hfin, hspec, rfl⟩ |
    ⟨t, task, e0, hg, hfin, hspec, rfl⟩ | ⟨t, task, hg, hfin, hspec, rfl⟩ |
    ⟨i, spec, t, v0, hg, hv, rfl⟩ | ⟨i, spec, t, task, e0, hg, ht, hslot, rfl⟩ |
    ⟨i, spec, t, task, hg, ht, hslot, rfl⟩ | ⟨i, spec, t, hg, rfl⟩ <;>
  simp [deliverToWaiters]

theorem applyStep_done_ok_value {Val Err : Type} (step : CacheMapStep)
    (s s' : CacheMapState Val Err) (h : applyStep step s = some s')
    (hP : ∀ c ∈ s.callers, ∀ v, c.2 = .done (.ok v) → s.value = some v) :
    ∀ c ∈ s'.callers, ∀ v, c.2 = .done (.ok v) → s'.value = some v := by
  rcases applyStep_spec step s s' h with
    ⟨i, spec, v0, hg, hv, rfl⟩ | ⟨i, spec, hg, hv, rfl⟩ | ⟨i, spec, t, hg, hf, rfl⟩ |
    ⟨i, spec, hg, hf, rfl⟩ | ⟨t, task, v0, hg, hfin, hspec, rfl⟩ |
    ⟨t, task, e0, hg, hfin, hspec, rfl⟩ | ⟨t, task, hg, hfin, hspec, rfl⟩ |
    ⟨i, spec, t, v0, hg, hv, rfl⟩ | ⟨i, spec, t, task, e0, hg, ht, hslot, rfl⟩ |
    ⟨i, spec, t, task, hg, ht, hslot, rfl⟩ | ⟨i, spec, t, hg, rfl⟩ <;>
  intro c hc v hdone
  case _ =>
    rcases List.mem_or_eq_of_mem_set hc with hc | rfl
    · exact hP c hc v hdone
    · injection hdone with hdone
      injection hdone with hdone
      rw [hdone] at hv
      exact hv
  case _ =>
    rcases List.mem_or_eq_of_mem_set hc with hc | rfl
    · exact hP c hc v hdone
    · exact CallerPhase.noConfusion hdone
  case _ =>
    rcases List.mem_or_eq_of_mem_set hc with hc | rfl
    · exact hP c hc v hdone
    · exact CallerPhase.noConfusion hdone
  case _ =>
    rcases List.mem_or_eq_of_mem_set hc with hc | rfl
    · exact hP c hc v hdone
    · exact CallerPhase.noConfusion hdone
  case _ =>
    obtain ⟨c0, hc0, _, h2⟩ := mem_deliverToWaiters hc
    rcases h2 with h2 | ⟨hw, h2⟩
    · have := hP c0 hc0 v (h2 ▸ hdone)
      simp [this]
    · rw [h2] at hdone
      exact CallerPhase.noConfusion hdone
  case _ =>
    obtain ⟨c0, hc0, _, h2⟩ := mem_deliverToWaiters hc
    rcases h2 with h2 | ⟨hw, h2⟩
    · exact hP c0 hc0 v (h2 ▸ hdone)
    · rw [h2] at hdone
      exact CallerPhase.noConfusion hdone
  case _ =>
    obtain ⟨c0, hc0, _, h2⟩ := mem_deliverToWaiters hc
    rcases h2 with h2 | ⟨hw, h2⟩
    · exact hP c0 hc0 v (h2 ▸ hdone)
    · rw [h2] at hdone
      exact CallerPhase.noConfusion hdone
  case _ =>
    rcases List.mem_or_eq_of_mem_set hc with hc | rfl
    · exact hP c hc v hdone
    · injection hdone with hdone
      injection hdone with hdone
      rw [hdone] at hv
      exact hv
  case _ =>
    rcases List.mem_or_eq_of_mem_set hc with hc | rfl
    · exact hP c hc v hdone
    · injection hdone with hdone
      exact CallOutcome.noConfusion hdone
  case _ =>
    rcases List.mem_or_eq_of_mem_set hc with hc | rfl
    · exact hP c hc v hdone
    · injection hdone with hdone
      exact CallOutcome.noConfusion hdone
  case _ =>
    rcases List.mem_or_eq_of_mem_set hc with hc | rfl
    · exact hP c hc v hdone
    · injection hdone with hdone
      exact CallOutcome.noConfusion hdone

theorem countAdvanced_deliverToWaiters {Val Err : Type}
    (callers : List (ProducerSpec Val Err × CallerPhase Val Err)) (t : Nat)
    (msg : BroadcastMsg) :
    (deliverToWaiters callers t msg).countP (fun c => phaseAdvanced c.2) =
      callers.countP (fun c => phaseAdvanced c.2) := by
  unfold deliverToWaiters
  apply countP_map_congr
  intro x hx
  cases hph : x.2 with
  | waiting t' => by_cases ht : t' = t <;> simp [hph, ht, phaseAdvanced]
  | start => simp [hph]
  | missed => simp [hph]
  | received a b => simp [hph]
  | done o => simp [hph]

theorem countAdvanced_set {Val Err : Type}
    (callers : List (ProducerSpec Val Err × CallerPhase Val Err)) (i : Nat)
    (spec spec' : ProducerSpec Val Err) (ph ph' : CallerPhase Val Err)
    (hg : callers.get? i = some (spec, ph)) :
    (callers.set i (spec', ph')).countP (fun c => phaseAdvanced c.2) +
      (if phaseAdvanced ph then 1 else 0) =
    callers.countP (fun c => phaseAdvanced c.2) +
      (if phaseAdvanced ph' then 1 else 0) := by
  have hc := countP_set_of_get? (fun c => phaseAdvanced c.2) callers i (spec, ph)
    (spec', ph') hg
  exact hc

theorem applyStep_invocations_le {Val Err : Type} (step : CacheMapStep)
    (s s' : CacheMapState Val Err) (h : applyStep step s = some s')
    (hP : s.invocations ≤ countAdvanced s) : s'.invocations ≤ countAdvanced s' := by
  unfold countAdvanced at hP ⊢
  rcases applyStep_spec step s s' h with
    ⟨i, spec, v0, hg, hv, rfl⟩ | ⟨i, spec, hg, hv, rfl⟩ | ⟨i, spec, t, hg, hf, rfl⟩ |
    ⟨i, spec, hg, hf, rfl⟩ | ⟨t, task, v0, hg, hfin, hspec, rfl⟩ |
    ⟨t, task, e0, hg, hfin, hspec, rfl⟩ | ⟨t, task, hg, hfin, hspec, rfl⟩ |
    ⟨i, spec, t, v0, hg, hv, rfl⟩ | ⟨i, spec, t, task, e0, hg, ht, hslot, rfl⟩ |
    ⟨i, spec, t, task, hg, ht, hslot, rfl⟩ | ⟨i, spec, t, hg, rfl⟩
  case _ =>
    have hc := countAdvanced_set s.callers i spec spec CallerPhase.start
      (CallerPhase.done (CallOutcome.ok v0)) hg
    rw [show (if phaseAdvanced (CallerPhase.start : CallerPhase Val Err) then 1 else 0)
          = 0 from rfl,
        show (if phaseAdvanced (CallerPhase.done (CallOutcome.ok v0)) then 1 else 0)
          = 1 from rfl] at hc
    simp only []
    omega
  case _ =>
    have hc := countAdvanced_set s.callers i spec spec CallerPhase.start
      CallerPhase.missed hg
    rw [show (if phaseAdvanced (CallerPhase.start : CallerPhase Val Err) then 1 else 0)
          = 0 from rfl,
        show (if phaseAdvanced (CallerPhase.missed : CallerPhase Val Err) then 1 else 0)
          = 0 from rfl] at hc
    simp only []
    omega
  case _ =>
    have hc := countAdvanced_set s.callers i spec spec CallerPhase.missed
      (CallerPhase.waiting t) hg
    rw [show (if phaseAdvanced (CallerPhase.missed : CallerPhase Val Err) then 1 else 0)
          = 0 from rfl,
        show (if phaseAdvanced (CallerPhase.waiting t : CallerPhase Val Err) then 1 else 0)
          = 1 from rfl] at hc
    simp only []
    omega
  case _ =>
    have hc := countAdvanced_set s.callers i spec spec CallerPhase.missed
      (CallerPhase.waiting s.tasks.length) hg
    rw [show (if phaseAdvanced (CallerPhase.missed : CallerPhase Val Err) then 1 else 0)
          = 0 from rfl,
        show (if phaseAdvanced (CallerPhase.waiting s.tasks.length : CallerPhase Val Err)
            then 1 else 0) = 1 from rfl] at hc
    simp only []
    omega
  case _ =>
    have hc := countAdvanced_deliverToWaiters s.callers t BroadcastMsg.okUnit
    simp only []
    omega
  case _ =>
    have hc := countAdvanced_deliverToWaiters s.callers t BroadcastMsg.erred
    simp only []
    omega
  case _ =>
    have hc := countAdvanced_deliverToWaiters s.callers t BroadcastMsg.closed
    simp only []
    omega
  case _ =>
    have hc := countAdvanced_set s.callers i spec spec
      (CallerPhase.received t BroadcastMsg.okUnit) (CallerPhase.done (CallOutcome.ok v0)) hg
    rw [show (if phaseAdvanced (CallerPhase.received t BroadcastMsg.okUnit :
            CallerPhase Val Err) then 1 else 0) = 1 from rfl,
        show (if phaseAdvanced (CallerPhase.done (CallOutcome.ok v0)) then 1 else 0)
          = 1 from rfl] at hc
    simp only []
    omega
  case _ =>
    have hc := countAdvanced_set s.callers i spec spec
      (CallerPhase.received t BroadcastMsg.erred)
      (CallerPhase.done (CallOutcome.cacheError e0)) hg
    rw [show (if phaseAdvanced (CallerPhase.received t BroadcastMsg.erred :
            CallerPhase Val Err) then 1 else 0) = 1 from rfl,
        show (if phaseAdvanced (CallerPhase.done (CallOutcome.cacheError e0)) then 1 else 0)
          = 1 from rfl] at hc
    simp only []
    omega
  case _ =>
    have hc := countAdvanced_set s.callers i spec spec
      (CallerPhase.received t BroadcastMsg.erred)
      (CallerPhase.done (CallOutcome.coalescedOperationFailed : CallOutcome Val Err)) hg
    rw [show (if phaseAdvanced (CallerPhase.received t BroadcastMsg.erred :
            CallerPhase Val Err) then 1 else 0) = 1 from rfl,
        show (if phaseAdvanced (CallerPhase.done
            (CallOutcome.coalescedOperationFailed : CallOutcome Val Err)) then 1 else 0)
          = 1 from rfl] at hc
    simp only []
    omega
  case _ =>
    have hc := countAdvanced_set s.callers i spec spec
      (CallerPhase.received t BroadcastMsg.closed)
      (CallerPhase.done (CallOutcome.cancelled : CallOutcome Val Err)) hg
    rw [show (if phaseAdvanced (CallerPhase.received t BroadcastMsg.closed :
            CallerPhase Val Err) then 1 else 0) = 1 from rfl,
        show (if phaseAdvanced (CallerPhase.done
            (CallOutcome.cancelled : CallOutcome Val Err)) then 1 else 0)
          = 1 from rfl] at hc
    simp only []
    omega

theorem applyStep_zero_inv {Val Err : Type} (step : CacheMapStep)
    (s s' : CacheMapState Val Err) (h : applyStep step s = some s')
    (hP : s.invocations = 0 → s.value = none ∧ s.inFlight = .absent ∧ s.tasks = [] ∧
      ∀ c ∈ s.callers, c.2 = .start ∨ c.2 = .missed) :
    s'.invocations = 0 → s'.value = none ∧ s'.inFlight = .absent ∧ s'.tasks = [] ∧
      ∀ c ∈ s'.callers, c.2 = .start ∨ c.2 = .missed := by
  rcases applyStep_spec step s s' h with
    ⟨i, spec, v0, hg, hv, rfl⟩ | ⟨i, spec, hg, hv, rfl⟩ | ⟨i, spec, t, hg, hf, rfl⟩ |
    ⟨i, spec, hg, hf, rfl⟩ | ⟨t, task, v0, hg, hfin, hspec, rfl⟩ |
    ⟨t, task, e0, hg, hfin, hspec, rfl⟩ | ⟨t, task, hg, hfin, hspec, rfl⟩ |
    ⟨i, spec, t, v0, hg, hv, rfl⟩ | ⟨i, spec, t, task, e0, hg, ht, hslot, rfl⟩ |
    ⟨i, spec, t, task, hg, ht, hslot, rfl⟩ | ⟨i, spec, t, hg, rfl⟩ <;>
  intro h0
  case _ =>
    obtain ⟨hval, _, _, _⟩ := hP h0
    rw [hval] at hv
    exact Option.noConfusion hv
  case _ =>
    obtain ⟨hval, hif, htasks, hph⟩ := hP h0
    refine ⟨hval, hif, htasks, ?_⟩
    intro c hc
    rcases List.mem_or_eq_of_mem_set hc with hc | rfl
    · exact hph c hc
    · exact Or.inr rfl
  case _ =>
    obtain ⟨_, hif, _, _⟩ := hP h0
    rw [hif] at hf
    exact InFlightEntry.noConfusion hf
  case _ =>
    exact absurd h0 (Nat.succ_ne_zero _)
  case _ =>
    obtain ⟨_, _, htasks, _⟩ := hP h0
    rw [htasks] at hg
    exact Option.noConfusion hg
  case _ =>
    obtain ⟨_, _, htasks, _⟩ := hP h0
    rw [htasks] at hg
    exact Option.noConfusion hg
  case _ =>
    obtain ⟨_, _, htasks, _⟩ := hP h0
    rw [htasks] at hg
    exact Option.noConfusion hg
  case _ =>
    obtain ⟨_, _, _, hph⟩ := hP h0
    rcases hph _ (List.get?_mem hg) with hs | hs <;> exact CallerPhase.noConfusion hs
  case _ =>
    obtain ⟨_, _, _, hph⟩ := hP h0
    rcases hph _ (List.get?_mem hg) with hs | hs <;> exact CallerPhase.noConfusion hs
  case _ =>
    obtain ⟨_, _, _, hph⟩ := hP h0
    rcases hph _ (List.get?_mem hg) with hs | hs <;> exact CallerPhase.noConfusion hs
  case _ =>
    obtain ⟨_, _, _, hph⟩ := hP h0
    rcases hph _ (List.get?_mem hg) with hs | hs <;> exact CallerPhase.noConfusion hs

theorem applyStep_err_sound {Val Err : Type} (step : CacheMapStep)
    (s s' : CacheMapState Val Err) (h : applyStep step s = some s')
    (hP : (∀ t ∈ s.tasks, ∀ e, t.errSlot = some e → t.spec = .fails e) ∧
      (∀ c ∈ s.callers, ∀ e, c.2 = .done (.cacheError e) →
        ∃ t ∈ s.tasks, t.spec = .fails e)) :
    (∀ t ∈ s'.tasks, ∀ e, t.errSlot = some e → t.spec = .fails e) ∧
    (∀ c ∈ s'.callers, ∀ e, c.2 = .done (.cacheError e) →
      ∃ t ∈ s'.tasks, t.spec = .fails e) := by
  obtain ⟨hT, hC⟩ := hP
  rcases applyStep_spec step s s' h with
    ⟨i, spec, v0, hg, hv, rfl⟩ | ⟨i, spec, hg, hv, rfl⟩ | ⟨i, spec, t, hg, hf, rfl⟩ |
    ⟨i, spec, hg, hf, rfl⟩ | ⟨t, task, v0, hg, hfin, hspec, rfl⟩ |
    ⟨t, task, e0, hg, hfin, hspec, rfl⟩ | ⟨t, task, hg, hfin, hspec, rfl⟩ |
    ⟨i, spec, t, v0, hg, hv, rfl⟩ | ⟨i, spec, t, task, e0, hg, ht, hslot, rfl⟩ |
    ⟨i, spec, t, task, hg, ht, hslot, rfl⟩ | ⟨i, spec, t, hg, rfl⟩
  case _ =>
    refine ⟨hT, ?_⟩
    intro c hc e hdone
    rcases List.mem_or_eq_of_mem_set hc with hc | rfl
    · exact hC c hc e hdone
    · injection hdone with hdone
      exact CallOutcome.noConfusion hdone
  case _ =>
    refine ⟨hT, ?_⟩
    intro c hc e hdone
    rcases List.mem_or_eq_of_mem_set hc with hc | rfl
    · exact hC c hc e hdone
    · exact CallerPhase.noConfusion hdone
  case _ =>
    refine ⟨hT, ?_⟩
    intro c hc e hdone
    rcases List.mem_or_eq_of_mem_set hc with hc | rfl
    · exact hC c hc e hdone
    · exact CallerPhase.noConfusion hdone
  case _ =>
    constructor
    · intro tk htk e hslot
      rcases List.mem_append.mp htk with htk | htk
      · exact hT tk htk e hslot
      · rw [List.mem_singleton.mp htk] at hslot
        exact Option.noConfusion hslot
    · intro c hc e hdone
      rcases List.mem_or_eq_of_mem_set hc with hc | rfl
      · obtain ⟨t0, ht0, hs0⟩ := hC c hc e hdone
        exact ⟨t0, List.mem_append_left _ ht0, hs0⟩
      · exact CallerPhase.noConfusion hdone
  case _ =>
    constructor
    · intro tk htk e hslot
      rcases List.mem_or_eq_of_mem_set htk with htk | rfl
      · exact hT tk htk e hslot
      · exact hT task (List.get?_mem hg) e hslot
    · intro c hc e hdone
      obtain ⟨c0, hc0, _, h2⟩ := mem_deliverToWaiters hc
      rcases h2 with h2 | ⟨hw, h2⟩
      · exact exists_mem_set_of_spec_eq hg
          (rfl : ({ task with finished := true } : TaskState Val Err).spec = task.spec)
          (hC c0 hc0 e (h2 ▸ hdone))
      · rw [h2] at hdone
        exact CallerPhase.noConfusion hdone
  case _ =>
    constructor
    · intro tk htk e hslot
      rcases List.mem_or_eq_of_mem_set htk with htk | rfl
      · exact hT tk htk e hslot
      · injection hslot with hslot
        rw [hslot] at hspec
        exact hspec
    · intro c hc e hdone
      obtain ⟨c0, hc0, _, h2⟩ := mem_deliverToWaiters hc
      rcases h2 with h2 | ⟨hw, h2⟩
      · exact exists_mem_set_of_spec_eq hg
          (rfl : ({ task with finished := true, errSlot := some e0 } : TaskState Val Err).spec = task.spec)
          (hC c0 hc0 e (h2 ▸ hdone))
      · rw [h2] at hdone
        exact CallerPhase.noConfusion hdone
  case _ =>
    constructor
    · intro tk htk e hslot
      rcases List.mem_or_eq_of_mem_set htk with htk | rfl
      · exact hT tk htk e hslot
      · exact hT task (List.get?_mem hg) e hslot
    · intro c hc e hdone
      obtain ⟨c0, hc0, _, h2⟩ := mem_deliverToWaiters hc
      rcases h2 with h2 | ⟨hw, h2⟩
      · exact exists_mem_set_of_spec_eq hg
          (rfl : ({ task with finished := true } : TaskState Val Err).spec = task.spec)
          (hC c0 hc0 e (h2 ▸ hdone))
      · rw [h2] at hdone
        exact CallerPhase.noConfusion hdone
  case _ =>
    refine ⟨hT, ?_⟩
    intro c hc e hdone
    rcases List.mem_or_eq_of_mem_set hc with hc | rfl
    · exact hC c hc e hdone
    · injection hdone with hdone
      exact CallOutcome.noConfusion hdone
  case _ =>
    constructor
    · intro tk htk e hslot
      rcases List.mem_or_eq_of_mem_set htk with htk | rfl
      · exact hT tk htk e hslot
      · exact Option.noConfusion hslot
    · intro c hc e hdone
      rcases List.mem_or_eq_of_mem_set hc with hc | rfl
      · exact exists_mem_set_of_spec_eq ht
          (rfl : ({ task with errSlot := none } : TaskState Val Err).spec = task.spec)
          (hC c hc e hdone)
      · injection hdone with hdone
        injection hdone with hdone
        refine ⟨{ task with errSlot := none }, mem_set_of_get? _ ht, ?_⟩
        have := hT task (List.get?_mem ht) e0 hslot
        rw [← hdone]
        exact this
  case _ =>
    refine ⟨hT, ?_⟩
    intro c hc e hdone
    rcases List.mem_or_eq_of_mem_set hc with hc | rfl
    · exact hC c hc e hdone
    · injection hdone with hdone
      exact CallOutcome.noConfusion hdone
  case _ =>
    refine ⟨hT, ?_⟩
    intro c hc e hdone
    rcases List.mem_or_eq_of_mem_set hc with hc | rfl
    · exact hC c hc e hdone
    · injection hdone with hdone
      exact CallOutcome.noConfusion hdone

theorem applyStep_value_from_ok {Val Err : Type} (step : CacheMapStep)
    (s s' : CacheMapState Val Err) (h : applyStep step s = some s')
    (hP : ∀ v, s.value = some v → ∃ t ∈ s.tasks, t.spec = .ok v) :
    ∀ v, s'.value = some v → ∃ t ∈ s'.tasks, t.spec = .ok v := by
  rcases applyStep_spec step s s' h with
    ⟨i, spec, v0, hg, hv, rfl⟩ | ⟨i, spec, hg, hv, rfl⟩ | ⟨i, spec, t, hg, hf, rfl⟩ |
    ⟨i, spec, hg, hf, rfl⟩ | ⟨t, task, v0, hg, hfin, hspec, rfl⟩ |
    ⟨t, task, e0, hg, hfin, hspec, rfl⟩ | ⟨t, task, hg, hfin, hspec, rfl⟩ |
    ⟨i, spec, t, v0, hg, hv, rfl⟩ | ⟨i, spec, t, task, e0, hg, ht, hslot, rfl⟩ |
    ⟨i, spec, t, task, hg, ht, hslot, rfl⟩ | ⟨i, spec, t, hg, rfl⟩ <;>
  intro v hval
  case _ => exact hP v hval
  case _ => exact hP v hval
  case _ => exact hP v hval
  case _ =>
    obtain ⟨t0, ht0, hs0⟩ := hP v hval
    exact ⟨t0, List.mem_append_left _ ht0, hs0⟩
  case _ =>
    injection hval with hval
    cases hsv : s.value with
    | none =>
      rw [hsv] at hval
      refine ⟨{ task with finished := true }, mem_set_of_get? _ hg, ?_⟩
      rw [← hval]
      exact hspec
    | some w =>
      rw [hsv] at hval
      have : w = v := hval
      subst this
      exact exists_mem_set_of_spec_eq hg
        (rfl : ({ task with finished := true } : TaskState Val Err).spec = task.spec)
        (hP w hsv)
  case _ =>
    exact exists_mem_set_of_spec_eq hg
      (rfl : ({ task with finished := true, errSlot := some e0 } :
        TaskState Val Err).spec = task.spec)
      (hP v hval)
  case _ =>
    exact exists_mem_set_of_spec_eq hg
      (rfl : ({ task with finished := true } : TaskState Val Err).spec = task.spec)
      (hP v hval)
  case _ => exact hP v hval
  case _ =>
    exact exists_mem_set_of_spec_eq ht
      (rfl : ({ task with errSlot := none } : TaskState Val Err).spec = task.spec)
      (hP v hval)
  case _ => exact hP v hval
  case _ => exact hP v hval

theorem runSteps_initState_inv {Val Err : Type} (specs : List (ProducerSpec Val Err))
    (steps : List CacheMapStep) (s' : CacheMapState Val Err)
    (h : runSteps steps (initState specs) = some s') :
    s'.callers.length = specs.length ∧
    s'.invocations ≤ countAdvanced s' ∧
    (s'.invocations = 0 → s'.value = none ∧ s'.inFlight = .absent ∧ s'.tasks = [] ∧
      ∀ c ∈ s'.callers, c.2 = .start ∨ c.2 = .missed) ∧
    (∀ c ∈ s'.callers, ∀ v, c.2 = .done (.ok v) → s'.value = some v) ∧
    ((∀ t ∈ s'.tasks, ∀ e, t.errSlot = some e → t.spec = .fails e) ∧
      (∀ c ∈ s'.callers, ∀ e, c.2 = .done (.cacheError e) →
        ∃ t ∈ s'.tasks, t.spec = .fails e)) ∧
    (∀ v, s'.value = some v → ∃ t ∈ s'.tasks, t.spec = .ok v) := by
  apply runSteps_induct
    (fun st =>
      st.callers.length = specs.length ∧
      st.invocations ≤ countAdvanced st ∧
      (st.invocations = 0 → st.value = none ∧ st.inFlight = .absent ∧ st.tasks = [] ∧
        ∀ c ∈ st.callers, c.2 = .start ∨ c.2 = .missed) ∧
      (∀ c ∈ st.callers, ∀ v, c.2 = .done (.ok v) → st.value = some v) ∧
      ((∀ t ∈ st.tasks, ∀ e, t.errSlot = some e → t.spec = .fails e) ∧
        (∀ c ∈ st.callers, ∀ e, c.2 = .done (.cacheError e) →
          ∃ t ∈ st.tasks, t.spec = .fails e)) ∧
      (∀ v, st.value = some v → ∃ t ∈ st.tasks, t.spec = .ok v))
    ?_ steps (initState specs) s' h ?_
  · intro step s1 s2 hstep hP
    obtain ⟨h1, h2, h3, h4, h5, h6⟩ := hP
    exact ⟨(applyStep_callers_length step s1 s2 hstep).trans h1,
      applyStep_invocations_le step s1 s2 hstep h2,
      applyStep_zero_inv step s1 s2 hstep h3,
      applyStep_done_ok_value step s1 s2 hstep h4,
      applyStep_err_sound step s1 s2 hstep h5,
      applyStep_value_from_ok step s1 s2 hstep h6⟩
  · refine ⟨by simp [initState], Nat.zero_le _, ?_, ?_, ⟨?_, ?_⟩, ?_⟩
    · intro _
      refine ⟨rfl, rfl, rfl, ?_⟩
      intro c hc
      obtain ⟨sp, _, rfl⟩ := List.mem_map.mp hc
      exact Or.inl rfl
    · intro c hc v hdone
      obtain ⟨sp, _, rfl⟩ := List.mem_map.mp hc
      exact CallerPhase.noConfusion hdone
    · intro tk htk
      exact absurd htk (List.not_mem_nil tk)
    · intro c hc e hdone
      obtain ⟨sp, _, rfl⟩ := List.mem_map.mp hc
      exact CallerPhase.noConfusion hdone
    · intro v hv
      exact Option.noConfusion hv

/-! ## Claim theorems: C2, C3, C4 -/

/-- Counterexample for C2: an interleaving of two concurrent callers for the
same key, starting with nothing cached, in which the producer is invoked twice:
both callers miss the lock-free fast-path read; the first registers its
producer, which completes, publishes and removes the in-flight entry; only
then does the second caller acquire the in_flight lock, find neither a live
sender nor (since it never re-reads the value map inside the critical section)
the published value, and register the producer again. Both callers still
observe the single first-published value, but the invocation count is 2, not
1. -/
theorem c2_counterexample :
    runSteps [.fastPath 0, .fastPath 1, .lockCheck 0, .taskComplete 0, .receive 0,
        .lockCheck 1, .taskComplete 1, .receive 1]
      ((initState [ProducerSpec.ok 7, ProducerSpec.ok 7]) : CacheMapState Nat Nat) =
      some { value := some 7,
             inFlight := .absent,
             callers := [(.ok 7, .done (.ok 7)), (.ok 7, .done (.ok 7))],
             tasks := [{ spec := .ok 7, finished := true, errSlot := none },
                       { spec := .ok 7, finished := true, errSlot := none }],
             invocations := 2 } ∧
    (2 : Nat) ≠ 1 :=
  ⟨rfl, by decide⟩

/-- Claim C2 as amended: with N concurrent callers for one key and nothing
cached, every interleaving invokes the producer at least once (as soon as any
caller completes) and at most N times - the race between the lock-free
fast-path read and the in-flight critical section allows a caller that missed
the fast path to re-register after the producer already published - and every
caller that completes with a value observes the single first-published value. -/
theorem c2_single_flight_amended {Val Err : Type} (specs : List (ProducerSpec Val Err))
    (steps : List CacheMapStep) (s' : CacheMapState Val Err)
    (h : runSteps steps (initState specs) = some s') :
    s'.invocations ≤ specs.length ∧
    ((∃ c ∈ s'.callers, ∃ o, c.2 = .done o) → 1 ≤ s'.invocations) ∧
    (∀ c ∈ s'.callers, ∀ v, c.2 = .done (.ok v) → s'.value = some v) := by
  obtain ⟨hlen, hle, hzero, hdone, _, _⟩ := runSteps_initState_inv specs steps s' h
  refine ⟨?_, ?_, hdone⟩
  · calc s'.invocations ≤ countAdvanced s' := hle
      _ ≤ s'.callers.length := List.countP_le_length _
      _ = specs.length := hlen
  · rintro ⟨c, hc, o, ho⟩
    by_contra hlt
    have h0 : s'.invocations = 0 := by omega
    obtain ⟨_, _, _, hph⟩ := hzero h0
    rcases hph c hc with hs | hs <;> (rw [ho] at hs; exact CallerPhase.noConfusion hs)

/-- Witness for C2 at the two-caller double-invocation interleaving. -/
theorem c2_single_flight_witness :
    runSteps [.fastPath 0, .fastPath 1, .lockCheck 0, .taskComplete 0, .receive 0,
        .lockCheck 1, .taskComplete 1, .receive 1]
      ((initState [ProducerSpec.ok 7, ProducerSpec.ok 7]) : CacheMapState Nat Nat) =
      some { value := some 7,
             inFlight := .absent,
             callers := [(.ok 7, .done (.ok 7)), (.ok 7, .done (.ok 7))],
             tasks := [{ spec := .ok 7, finished := true, errSlot := none },
                       { spec := .ok 7, finished := true, errSlot := none }],
             invocations := 2 } ∧
    ({ value := some 7,
       inFlight := .absent,
       callers := [(.ok 7, .done (.ok 7)), (.ok 7, .done (.ok 7))],
       tasks := [{ spec := .ok 7, finished := true, errSlot := none },
                 { spec := .ok 7, finished := true, errSlot := none }],
       invocations := 2 } : CacheMapState Nat Nat).invocations ≤ 2 :=
  ⟨rfl,
   (c2_single_flight_amended [ProducerSpec.ok 7, ProducerSpec.ok 7]
     [.fastPath 0, .fastPath 1, .lockCheck 0, .taskComplete 0, .receive 0,
        .lockCheck 1, .taskComplete 1, .receive 1] _ rfl).1⟩

/-- Counterexample for C3: two concurrent callers coalesce on one failing
producer. The error travels in a shared one-shot slot (the Arc Mutex Option
cell) from which each waiter takes: the first waiter to return from recv
obtains the error 5 itself, and the second finds the slot empty and observes
the generic CoalescedOperationFailed - not the error itself as the claim
states. No value is cached for the key. -/
theorem c3_counterexample :
    runSteps [.fastPath 0, .fastPath 1, .lockCheck 0, .lockCheck 1, .taskComplete 0,
        .receive 0, .receive 1]
      ((initState [ProducerSpec.fails 5, ProducerSpec.fails 5]) : CacheMapState Nat Nat) =
      some { value := none,
             inFlight := .absent,
             callers := [(.fails 5, .done (.cacheError 5)),
                         (.fails 5, .done .coalescedOperationFailed)],
             tasks := [{ spec := .fails 5, finished := true, errSlot := none }],
             invocations := 1 } ∧
    (CallOutcome.coalescedOperationFailed : CallOutcome Nat Nat) ≠ .cacheError 5 :=
  ⟨rfl, by decide⟩

/-- Claim C3 as amended: a failing producer's error e reaches its waiters
through a shared one-shot slot: the first waiter to complete its recv observes
e itself and empties the slot, and every other waiter of that call observes
the generic CoalescedOperationFailed. Every surfaced CacheError is the error
of an actual failed producer, the cached value (when present) always comes
from a successful producer - the error is never cached for the key. -/
theorem c3_error_take_amended {Val Err : Type} :
    (∀ (specs : List (ProducerSpec Val Err)) steps s',
      runSteps steps (initState specs) = some s' →
      (∀ c ∈ s'.callers, ∀ e, c.2 = .done (.cacheError e) →
        ∃ t ∈ s'.tasks, t.spec = .fails e) ∧
      (∀ v, s'.value = some v → ∃ t ∈ s'.tasks, t.spec = .ok v)) ∧
    (∀ (s : CacheMapState Val Err) i t spec task e s',
      s.callers.get? i = some (spec, .received t .erred) →
      s.tasks.get? t = some task → task.errSlot = some e →
      applyStep (.receive i) s = some s' →
      s'.callers.get? i = some (spec, .done (.cacheError e)) ∧
      s'.tasks.get? t = some { task with errSlot := none }) ∧
    (∀ (s : CacheMapState Val Err) i t spec task s',
      s.callers.get? i = some (spec, .received t .erred) →
      s.tasks.get? t = some task → task.errSlot = none →
      applyStep (.receive i) s = some s' →
      s'.callers.get? i = some (spec, .done .coalescedOperationFailed)) := by
  refine ⟨?_, ?_, ?_⟩
  · intro specs steps s' h
    obtain ⟨_, _, _, _, ⟨_, hCE⟩, hVal⟩ := runSteps_initState_inv specs steps s' h
    exact ⟨hCE, hVal⟩
  · intro s i t spec task e s' hg ht hslot h
    have hlt : i < s.callers.length := by
      by_contra hge
      rw [List.get?_eq_none.mpr (Nat.le_of_not_lt hge)] at hg
      exact Option.noConfusion hg
    have htlt : t < s.tasks.length := by
      by_contra hge
      rw [List.get?_eq_none.mpr (Nat.le_of_not_lt hge)] at ht
      exact Option.noConfusion ht
    unfold applyStep at h
    simp only [hg, ht, hslot] at h
    injection h with h
    subst h
    exact ⟨List.get?_set_eq_of_lt _ hlt, List.get?_set_eq_of_lt _ htlt⟩
  · intro s i t spec task s' hg ht hslot h
    have hlt : i < s.callers.length := by
      by_contra hge
      rw [List.get?_eq_none.mpr (Nat.le_of_not_lt hge)] at hg
      exact Option.noConfusion hg
    unfold applyStep at h
    simp only [hg, ht, hslot] at h
    injection h with h
    subst h
    exact List.get?_set_eq_of_lt _ hlt

/-- Witness for C3: the first part applied to the two-caller failing run, the
step parts applied at the state in which the failed task's slot still holds
the error and at the state in which it was already taken. -/
theorem c3_error_take_witness :
    (∀ c ∈ ({ value := none,
              inFlight := .absent,
              callers := [(.fails 5, .done (.cacheError 5)),
                          (.fails 5, .done .coalescedOperationFailed)],
              tasks := [{ spec := .fails 5, finished := true, errSlot := none }],
              invocations := 1 } : CacheMapState Nat Nat).callers,
      ∀ e, c.2 = .done (.cacheError e) →
        ∃ t ∈ ({ value := none,
                 inFlight := .absent,
                 callers := [(.fails 5, .done (.cacheError 5)),
                             (.fails 5, .done .coalescedOperationFailed)],
                 tasks := [{ spec := .fails 5, finished := true, errSlot := none }],
                 invocations := 1 } : CacheMapState Nat Nat).tasks,
          t.spec = .fails e) ∧
    (({ value := none, inFlight := .absent,
        callers := [(.fails 5, .done (.cacheError 5)), (.fails 5, .received 0 .erred)],
        tasks := [{ spec := .fails 5, finished := true, errSlot := none }],
        invocations := 1 } : CacheMapState Nat Nat).callers.get? 0 =
          some (.fails 5, .done (.cacheError 5)) ∧
      ({ value := none, inFlight := .absent,
         callers := [(.fails 5, .done (.cacheError 5)), (.fails 5, .received 0 .erred)],
         tasks := [{ spec := .fails 5, finished := true, errSlot := none }],
         invocations := 1 } : CacheMapState Nat Nat).tasks.get? 0 =
          some { spec := .fails 5, finished := true, errSlot := none }) :=
  ⟨((c3_error_take_amended).1 [ProducerSpec.fails 5, ProducerSpec.fails 5]
      [.fastPath 0, .fastPath 1, .lockCheck 0, .lockCheck 1, .taskComplete 0,
        .receive 0, .receive 1] _ rfl).1,
   (c3_error_take_amended).2.1
     ({ value := none, inFlight := .absent,
        callers := [(.fails 5, .received 0 .erred), (.fails 5, .received 0 .erred)],
        tasks := [{ spec := .fails 5, finished := true, errSlot := some 5 }],
        invocations := 1 } : CacheMapState Nat Nat)
     0 0 (.fails 5) { spec := .fails 5, finished := true, errSlot := some 5 } 5
     _ rfl rfl rfl rfl⟩

/-- Claim C4: a failing producer publishes neither a value nor an error: its
completing task leaves the value slot untouched and removes the in-flight
entry, a later caller that runs the fast path against the still-empty value
slot proceeds to the critical section, and a caller in the critical section
with no live in-flight entry registers (invokes) its own producer instead of
receiving a cached error. -/
theorem c4_no_poisoning {Val Err : Type} :
    (∀ (s : CacheMapState Val Err) t task e s',
      s.tasks.get? t = some task → task.finished = false → task.spec = .fails e →
      applyStep (.taskComplete t) s = some s' →
      s'.value = s.value ∧ s'.inFlight = .absent) ∧
    (∀ (s : CacheMapState Val Err) j spec s',
      s.callers.get? j = some (spec, .start) → s.value = none →
      applyStep (.fastPath j) s = some s' →
      s'.callers.get? j = some (spec, .missed)) ∧
    (∀ (s : CacheMapState Val Err) j spec s',
      s.callers.get? j = some (spec, .missed) → s.inFlight = .absent →
      applyStep (.lockCheck j) s = some s' →
      s'.invocations = s.invocations + 1 ∧
      s'.tasks = s.tasks ++ [{ spec := spec, finished := false, errSlot := none }]) := by
  refine ⟨?_, ?_, ?_⟩
  · intro s t task e s' ht hfin hspec h
    unfold applyStep at h
    simp only [ht, hfin, hspec] at h
    injection h with h
    subst h
    exact ⟨rfl, rfl⟩
  · intro s j spec s' hg hval h
    have hlt : j < s.callers.length := by
      by_contra hge
      rw [List.get?_eq_none.mpr (Nat.le_of_not_lt hge)] at hg
      exact Option.noConfusion hg
    unfold applyStep at h
    simp only [hg, hval] at h
    injection h with h
    subst h
    exact List.get?_set_eq_of_lt _ hlt
  · intro s j spec s' hg hif h
    unfold applyStep at h
    simp only [hg, hif] at h
    injection h with h
    subst h
    exact ⟨rfl, rfl⟩

/-- Witness for C4: the failure completion, fast-path miss, and re-registration
steps applied at concrete states: caller 0's producer failed with error 5;
caller 1 arrives afterwards, misses the fast path, and registers the second
producer, raising the invocation count to 2. -/
theorem c4_no_poisoning_witness :
    (({ value := none, inFlight := .absent,
        callers := [(.fails 5, .received 0 .erred), (.ok 7, .start)],
        tasks := [{ spec := .fails 5, finished := true, errSlot := some 5 }],
        invocations := 1 } : CacheMapState Nat Nat).value = none ∧
      ({ value := none, inFlight := .absent,
         callers := [(.fails 5, .received 0 .erred), (.ok 7, .start)],
         tasks := [{ spec := .fails 5, finished := true, errSlot := some 5 }],
         invocations := 1 } : CacheMapState Nat Nat).inFlight = .absent) ∧
    (({ value := none, inFlight := .absent,
        callers := [(.fails 5, .done (.cacheError 5)), (.ok 7, .missed)],
        tasks := [{ spec := .fails 5, finished := true, errSlot := none }],
        invocations := 1 } : CacheMapState Nat Nat).callers.get? 1 =
      some (.ok 7, .missed)) ∧
    (({ value := none, inFlight := .live 1,
        callers := [(.fails 5, .done (.cacheError 5)), (.ok 7, .waiting 1)],
        tasks := [{ spec := .fails 5, finished := true, errSlot := none },
                  { spec := .ok 7, finished := false, errSlot := none }],
        invocations := 2 } : CacheMapState Nat Nat).invocations = 1 + 1 ∧
      ({ value := none, inFlight := .live 1,
         callers := [(.fails 5, .done (.cacheError 5)), (.ok 7, .waiting 1)],
         tasks := [{ spec := .fails 5, finished := true, errSlot := none },
                   { spec := .ok 7, finished := false, errSlot := none }],
         invocations := 2 } : CacheMapState Nat Nat).tasks =
        [{ spec := .fails 5, finished := true, errSlot := none }] ++
          [{ spec := .ok 7, finished := false, errSlot := none }]) :=
  ⟨c4_no_poisoning.1
     ({ value := none, inFlight := .live 0,
        callers := [(.fails 5, .waiting 0), (.ok 7, .start)],
        tasks := [{ spec := .fails 5, finished := false, errSlot := none }],
        invocations := 1 } : CacheMapState Nat Nat)
     0 { spec := .fails 5, finished := false, errSlot := none } 5 _ rfl rfl rfl rfl,
   c4_no_poisoning.2.1
     ({ value := none, inFlight := .absent,
        callers := [(.fails 5, .done (.cacheError 5)), (.ok 7, .start)],
        tasks := [{ spec := .fails 5, finished := true, errSlot := none }],
        invocations := 1 } : CacheMapState Nat Nat)
     1 (.ok 7) _ rfl rfl rfl,
   c4_no_poisoning.2.2
     ({ value := none, inFlight := .absent,
        callers := [(.fails 5, .done (.cacheError 5)), (.ok 7, .missed)],
        tasks := [{ spec := .fails 5, finished := true, errSlot := none }],
        invocations := 1 } : CacheMapState Nat Nat)
     1 (.ok 7) _ rfl rfl rfl⟩

/-! ## Helper lemmas: the gateway traversal loop -/

theorem processName_seen_mono (name : PackageName) :
    ∀ (subs : List (Channel × Platform × SubdirData)) (st : GatewayLoopState) m,
      m ∈ st.seen → m ∈ (processName subs name st).seen := by
  intro subs
  induction subs with
  | nil => intro st m h; exact h
  | cons sub subs ih =>
    intro st m h
    exact ih _ m (addDependencies_seen_mono _ (st.seen, st.pending) m h)

theorem processName_pending_mono (name : PackageName) :
    ∀ (subs : List (Channel × Platform × SubdirData)) (st : GatewayLoopState) m,
      m ∈ st.pending → m ∈ (processName subs name st).pending := by
  intro subs
  induction subs with
  | nil => intro st m h; exact h
  | cons sub subs ih =>
    intro st m h
    exact ih _ m (addDependencies_pending_mono _ (st.seen, st.pending) m h)

theorem processName_result_mono (name : PackageName) :
    ∀ (subs : List (Channel × Platform × SubdirData)) (st : GatewayLoopState) x,
      x ∈ st.result → x ∈ (processName subs name st).result := by
  intro subs
  induction subs with
  | nil => intro st x h; exact h
  | cons sub subs ih =>
    intro st x h
    exact ih _ x (List.mem_append_left _ h)

theorem processName_pending_sub (name : PackageName) :
    ∀ (subs : List (Channel × Platform × SubdirData)) (st : GatewayLoopState) m,
      m ∈ (processName subs name st).pending →
        m ∈ st.pending ∨ m ∈ (processName subs name st).seen := by
  intro subs
  induction subs with
  | nil => intro st m h; exact Or.inl h
  | cons sub subs ih =>
    intro st m h
    rcases ih _ m h with hm | hm
    · rcases addDependencies_pending_sub _ (st.seen, st.pending) m hm with hm | ⟨r, hr, dep, hdep, rfl⟩
      · exact Or.inl hm
      · refine Or.inr (processName_seen_mono name subs _ _ ?_)
        exact addDependencies_complete _ (st.seen, st.pending) r hr dep hdep
    · exact Or.inr hm

theorem processName_seen_sub (name : PackageName) :
    ∀ (subs : List (Channel × Platform × SubdirData)) (st : GatewayLoopState) m,
      m ∈ (processName subs name st).seen →
        m ∈ st.seen ∨ m ∈ (processName subs name st).pending := by
  intro subs
  induction subs with
  | nil => intro st m h; exact Or.inl h
  | cons sub subs ih =>
    intro st m h
    rcases ih _ m h with hm | hm
    · rcases addDependencies_seen_sub _ (st.seen, st.pending) m hm with hm | hm
      · exact Or.inl hm
      · exact Or.inr (processName_pending_mono name subs _ m hm)
    · exact Or.inr hm

theorem processName_fetch_complete (name : PackageName) :
    ∀ (subs : List (Channel × Platform × SubdirData)) (st : GatewayLoopState),
      ∀ sub0 ∈ subs, ∀ rec ∈ lookupRecords sub0.2.2 name,
        (sub0.1, rec) ∈ (processName subs name st).result := by
  intro subs
  induction subs with
  | nil => intro st sub0 h; cases h
  | cons sub subs ih =>
    intro st sub0 hmem rec hrec
    rcases List.mem_cons.mp hmem with rfl | hmem
    · refine processName_result_mono name subs _ _ ?_
      exact List.mem_append_right _ (List.mem_map.mpr ⟨rec, hrec, rfl⟩)
    · exact ih _ sub0 hmem rec hrec

theorem processName_deps_seen (name : PackageName) :
    ∀ (subs : List (Channel × Platform × SubdirData)) (st : GatewayLoopState),
      ∀ sub0 ∈ subs, ∀ rec ∈ lookupRecords sub0.2.2 name, ∀ dep ∈ rec.depends,
        extractDepName dep ∈ (processName subs name st).seen := by
  intro subs
  induction subs with
  | nil => intro st sub0 h; cases h
  | cons sub subs ih =>
    intro st sub0 hmem rec hrec dep hdep
    rcases List.mem_cons.mp hmem with rfl | hmem
    · refine processName_seen_mono name subs _ _ ?_
      exact addDependencies_complete _ (st.seen, st.pending) rec hrec dep hdep
    · exact ih _ sub0 hmem rec hrec dep hdep

theorem processName_result_sub (name : PackageName) :
    ∀ (subs : List (Channel × Platform × SubdirData)) (st : GatewayLoopState) x,
      x ∈ (processName subs name st).result →
        x ∈ st.result ∨
          ∃ sub0 ∈ subs, x.1 = sub0.1 ∧ x.2 ∈ lookupRecords sub0.2.2 name := by
  intro subs
  induction subs with
  | nil => intro st x h; exact Or.inl h
  | cons sub subs ih =>
    intro st x h
    rcases ih _ x h with hx | ⟨sub0, hs0, h1, h2⟩
    · rcases List.mem_append.mp hx with hx | hx
      · exact Or.inl hx
      · obtain ⟨rec, hrec, rfl⟩ := List.mem_map.mp hx
        exact Or.inr ⟨sub, List.mem_cons_self _ _, rfl, hrec⟩
    · exact Or.inr ⟨sub0, List.mem_cons_of_mem _ hs0, h1, h2⟩

theorem gatewayInv_processName (subs : List (Channel × Platform × SubdirData))
    (st : GatewayLoopState) (n : PackageName) (rest : List PackageName)
    (hpend : st.pending = n :: rest) (hInv : GatewayInv subs st) :
    GatewayInv subs (processName subs n { st with pending := rest }) := by
  obtain ⟨h1, h2, h3⟩ := hInv
  refine ⟨?_, ?_, ?_⟩
  · intro m hm
    rcases processName_pending_sub n subs { st with pending := rest } m hm with hm' | hm'
    · have hms : m ∈ st.seen := h1 m (by rw [hpend]; exact List.mem_cons_of_mem _ hm')
      exact processName_seen_mono n subs _ m hms
    · exact hm'
  · intro cr hcr dep hdep
    rcases processName_result_sub n subs { st with pending := rest } cr hcr with
      hcr' | ⟨sub0, hs0, hch, hrec⟩
    · exact processName_seen_mono n subs _ _ (h2 cr hcr' dep hdep)
    · exact processName_deps_seen n subs _ sub0 hs0 cr.2 hrec dep hdep
  · intro m hm
    rcases processName_seen_sub n subs { st with pending := rest } m hm with hm' | hm'
    · rcases h3 m hm' with hp | hf
      · rw [hpend] at hp
        rcases List.mem_cons.mp hp with rfl | hp
        · refine Or.inr ?_
          intro sub hsub rec hrec
          exact processName_fetch_complete m subs _ sub hsub rec hrec
        · exact Or.inl (processName_pending_mono n subs _ m hp)
      · refine Or.inr ?_
        intro sub hsub rec hrec
        exact processName_result_mono n subs _ _ (hf sub hsub rec hrec)
    · exact Or.inl hm'

theorem gatewayLoop_closed (subs : List (Channel × Platform × SubdirData)) :
    ∀ (fuel : Nat) (st : GatewayLoopState) (result : List (Channel × RepoDataRecord)),
      GatewayInv subs st → gatewayLoop subs fuel st = some result →
      ∀ cr ∈ result, ∀ dep ∈ cr.2.depends,
        Fetched subs (extractDepName dep) result := by
  intro fuel
  induction fuel with
  | zero => intro st result _ h; exact Option.noConfusion h
  | succ fuel ih =>
    intro st result hInv h
    unfold gatewayLoop at h
    cases hpend : st.pending with
    | nil =>
      simp only [hpend] at h
      injection h with h
      subst h
      intro cr hcr dep hdep
      obtain ⟨h1, h2, h3⟩ := hInv
      rcases h3 _ (h2 cr hcr dep hdep) with hp | hf
      · rw [hpend] at hp
        cases hp
      · exact hf
    | cons n rest =>
      simp only [hpend] at h
      exact ih _ result (gatewayInv_processName subs st n rest hpend hInv) h

theorem buildSubdirsGo_ok_shape
    (src : Channel → Platform → Except SubdirSourceError SubdirData) :
    ∀ (l : List (Channel × Platform)) (subdirs : List (Channel × Platform × SubdirData)),
      buildSubdirsGo src l = .ok subdirs →
      subdirs = l.map (fun cp => (cp.1, cp.2, classifiedData src cp.1 cp.2)) := by
  intro l
  induction l with
  | nil =>
    intro subdirs h
    unfold buildSubdirsGo at h
    injection h with h
    exact h.symm
  | cons cp rest ih =>
    intro subdirs h
    unfold buildSubdirsGo at h
    cases hc : classifySubdirResult cp.2 (src cp.1 cp.2) with
    | ok o =>
      cases o with
      | some d =>
        simp only [hc] at h
        cases hrest : buildSubdirsGo src rest with
        | ok tail =>
          rw [hrest] at h
          injection h with h
          subst h
          rw [List.map_cons, ← ih tail hrest]
          have hd : classifiedData src cp.1 cp.2 = d := by
            unfold classifiedData
            rw [hc]
          rw [hd]
        | error e =>
          rw [hrest] at h
          exact Except.noConfusion h
      | none =>
        simp only [hc] at h
        cases hrest : buildSubdirsGo src rest with
        | ok tail =>
          rw [hrest] at h
          injection h with h
          subst h
          rw [List.map_cons, ← ih tail hrest]
          have hd : classifiedData src cp.1 cp.2 = [] := by
            unfold classifiedData
            rw [hc]
          rw [hd]
        | error e =>
          rw [hrest] at h
          exact Except.noConfusion h
    | error e =>
      simp only [hc] at h
      exact Except.noConfusion h

theorem queriedRecords_eq_classified
    (src : Channel → Platform → Except SubdirSourceError SubdirData)
    (c : Channel) (p : Platform) (n : PackageName) :
    queriedRecords src c p n = lookupRecords (classifiedData src c p) n := by
  unfold queriedRecords classifiedData
  cases hc : classifySubdirResult p (src c p) with
  | ok o =>
    cases o with
    | some d => simp
    | none => simp [lookupRecords]
  | error e => simp [lookupRecords]

/-! ## Claim theorems: C1 -/

/-- Claim C1: the map returned by find_recursive_records is closed under
dependency-name expansion: for every record in the result and every entry of
its depends list, the extracted dependency name is looked up in every queried
(channel, platform) subdir, and every record any queried subdir holds for that
name - every build, with no filtering by version constraints - appears in the
result under that subdir's channel. -/
theorem c1_find_recursive_records_closure
    (src : Channel → Platform → Except SubdirSourceError SubdirData)
    (channels : List Channel) (platforms : List Platform)
    (package_names : List PackageName) (fuel : Nat)
    (result : List (Channel × RepoDataRecord))
    (h : find_recursive_records src channels platforms package_names fuel =
      some (.ok result)) :
    ∀ cr ∈ result, ∀ dep ∈ cr.2.depends, ∀ cp ∈ subdirPairs channels platforms,
      ∀ rec ∈ queriedRecords src cp.1 cp.2 (extractDepName dep),
        (cp.1, rec) ∈ result := by
  simp only [find_recursive_records] at h
  by_cases hroots : package_names.eraseDups = []
  · rw [if_pos hroots] at h
    injection h with h
    injection h with h
    subst h
    intro cr hcr
    cases hcr
  · rw [if_neg hroots] at h
    cases hbuild : buildSubdirs src channels platforms with
    | error e =>
      simp only [hbuild] at h
      injection h with h
      exact Except.noConfusion h
    | ok subdirs =>
      simp only [hbuild] at h
      cases hloop : gatewayLoop subdirs fuel
          { seen := package_names.eraseDups, pending := package_names.eraseDups,
            result := [] } with
      | none =>
        simp only [hloop, Option.map_none'] at h
        exact Option.noConfusion h
      | some r =>
        simp only [hloop, Option.map_some'] at h
        have hr : r = result := by
          injection h with h
          injection h with h
        subst hr
        have hInv : GatewayInv subdirs
            { seen := package_names.eraseDups, pending := package_names.eraseDups,
              result := [] } :=
          ⟨fun m hm => hm, fun cr hcr => absurd hcr (List.not_mem_nil _),
           fun m hm => Or.inl hm⟩
        have hclosed := gatewayLoop_closed subdirs fuel _ r hInv hloop
        intro cr hcr dep hdep cp hcp rec hrec
        have hshape := buildSubdirsGo_ok_shape src _ subdirs hbuild
        have hsubmem : (cp.1, cp.2, classifiedData src cp.1 cp.2) ∈ subdirs := by
          rw [hshape]
          exact List.mem_map.mpr ⟨cp, hcp, rfl⟩
        refine hclosed cr hcr dep hdep _ hsubmem rec ?_
        rw [← queriedRecords_eq_classified]
        exact hrec

/-- Witness for C1: a channel whose noarch subdir holds python (depending on
libc) and two builds of libc; the traversal from the root python returns a map
that is closed under dependency-name expansion. -/
theorem c1_find_recursive_records_closure_witness :
    find_recursive_records
      (fun _ p =>
        if p = Platform.noArch then
          .ok [("python".toList,
                 [{ file_name := "python-1.tar.bz2", depends := ["libc >=2".toList] }]),
               ("libc".toList,
                 [{ file_name := "libc-1.tar.bz2", depends := [] },
                  { file_name := "libc-2.tar.bz2", depends := [] }])]
        else .error (.notFound "missing"))
      ["chan"] [Platform.noArch] ["python".toList] 3 =
      some (.ok
        [("chan", { file_name := "python-1.tar.bz2", depends := ["libc >=2".toList] }),
         ("chan", { file_name := "libc-1.tar.bz2", depends := [] }),
         ("chan", { file_name := "libc-2.tar.bz2", depends := [] })]) ∧
    (∀ cr ∈
        [(("chan" : Channel),
           ({ file_name := "python-1.tar.bz2", depends := ["libc >=2".toList] } :
             RepoDataRecord)),
         ("chan", { file_name := "libc-1.tar.bz2", depends := [] }),
         ("chan", { file_name := "libc-2.tar.bz2", depends := [] })],
      ∀ dep ∈ cr.2.depends, ∀ cp ∈ subdirPairs ["chan"] [Platform.noArch],
        ∀ rec ∈ queriedRecords
          (fun _ p =>
            if p = Platform.noArch then
              .ok [("python".toList,
                     [{ file_name := "python-1.tar.bz2",
                        depends := ["libc >=2".toList] }]),
                   ("libc".toList,
                     [{ file_name := "libc-1.tar.bz2", depends := [] },
                      { file_name := "libc-2.tar.bz2", depends := [] }])]
            else .error (.notFound "missing"))
          cp.1 cp.2 (extractDepName dep),
          (cp.1, rec) ∈
            [(("chan" : Channel),
               ({ file_name := "python-1.tar.bz2", depends := ["libc >=2".toList] } :
                 RepoDataRecord)),
             ("chan", { file_name := "libc-1.tar.bz2", depends := [] }),
             ("chan", { file_name := "libc-2.tar.bz2", depends := [] })]) :=
  ⟨rfl,
   c1_find_recursive_records_closure
     (fun _ p =>
       if p = Platform.noArch then
         .ok [("python".toList,
                [{ file_name := "python-1.tar.bz2", depends := ["libc >=2".toList] }]),
              ("libc".toList,
                [{ file_name := "libc-1.tar.bz2", depends := [] },
                 { file_name := "libc-2.tar.bz2", depends := [] }])]
       else .error (.notFound "missing"))
     ["chan"] [Platform.noArch] ["python".toList] 3 _ rfl⟩

end Rattler
